import Mathlib

set_option autoImplicit false

/-!
Shallow embedding of the plugin composition and conflict-resolution engine
(`src/plugins/resolve.ts`): the descriptor shape, the merge engine
`resolvePlugins`, the ownership tracer `findOwner`, and the conflict error,
together with proofs of the specified merge properties.

JS records (`Record<string, T>`) are modelled as association lists in
insertion order: reading a key returns the first matching entry, writing a
fresh key appends, writing an existing key updates in place.  Opaque
capability payloads (providers, rules, handlers, hooks) are modelled as `Nat`:
the engine never inspects them.  All payload interface types are object or
function types in the source, so a stored value is never falsy and the JS
truthiness tests (`if (resolved.permissions[slug])`, `if (plugin.auth)`, ...)
are presence tests.
-/

namespace Superapp

/-- Opaque integration-provider object (never inspected by the engine). -/
abbrev IntegrationProvider := Nat

/-- Opaque authentication-provider object. -/
abbrev AuthProvider := Nat

/-- Opaque permission-rule object. -/
abbrev Permission := Nat

/-- Opaque action-definition object. -/
abbrev ActionDefinition := Nat

/-- Opaque pipeline-middleware object. -/
abbrev PipelineMiddleware := Nat

/-- Opaque route-handler object. -/
abbrev RouteHandler := Nat

/-- Opaque lifecycle-callback object. -/
abbrev Hook := Nat

/-- The `Plugin` descriptor shape from `src/plugins/types.ts`: a display name
plus optional contribution sets and optional lifecycle callbacks. -/
structure Plugin where
  name : String
  integrations : Option (List IntegrationProvider) := none
  auth : Option AuthProvider := none
  permissions : Option (List (String × Permission)) := none
  roles : Option (List (String × List String)) := none
  actions : Option (List (String × ActionDefinition)) := none
  middleware : Option (List PipelineMiddleware) := none
  routes : Option (List (String × RouteHandler)) := none
  onInit : Option Hook := none
  onRequest : Option Hook := none
  onError : Option Hook := none
  onShutdown : Option Hook := none
  deriving DecidableEq, Repr

/-- The four collected lifecycle-hook lists of `ResolvedPlugins.hooks`. -/
structure Hooks where
  onInit : List Hook
  onRequest : List Hook
  onError : List Hook
  onShutdown : List Hook
  deriving DecidableEq, Repr

/-- The `ResolvedPlugins` output aggregate from `src/plugins/resolve.ts`. -/
structure ResolvedPlugins where
  integrations : List IntegrationProvider
  auth : Option AuthProvider
  permissions : List (String × Permission)
  roles : List (String × List String)
  actions : List (String × ActionDefinition)
  middleware : List PipelineMiddleware
  routes : List (String × RouteHandler)
  hooks : Hooks
  deriving DecidableEq, Repr

/-- The data carried by `PluginConflictError` (the constructor arguments
`kind`, `key`, `pluginA`, `pluginB` of the error class). -/
structure PluginConflictError where
  kind : String
  key : String
  pluginA : String
  pluginB : String
  deriving DecidableEq, Repr

/-- The message built by the `PluginConflictError` constructor: two template
literals concatenated exactly as in the source. -/
def PluginConflictError.message (e : PluginConflictError) : String :=
  ("Plugin conflict: " ++ e.kind ++ " \"" ++ e.key ++ "\" is defined by both \"" ++
      e.pluginA ++ "\" and \"" ++ e.pluginB ++ "\". ") ++
    ("Each " ++ e.kind ++ " must be provided by exactly one plugin.")

/-- Read a key from a JS record: first entry with a matching key. -/
def recGet {α : Type} (m : List (String × α)) (k : String) : Option α :=
  match m with
  | [] => none
  | (k0, v) :: rest => if k0 = k then some v else recGet rest k

/-- `key in obj` / truthiness test of `obj[key]` for object-valued records. -/
def recHas {α : Type} (m : List (String × α)) (k : String) : Bool :=
  (recGet m k).isSome

/-- Write a key into a JS record: update in place if present, append if new. -/
def recSet {α : Type} (m : List (String × α)) (k : String) (v : α) :
    List (String × α) :=
  match m with
  | [] => [(k, v)]
  | (k0, v0) :: rest =>
    if k0 = k then (k0, v) :: rest else (k0, v0) :: recSet rest k v

/-- The `field` parameter of `findOwner`: `'permissions' | 'actions' | 'routes'`. -/
inductive MergeField where
  | permissions
  | actions
  | routes
  deriving DecidableEq, Repr

/-- `p[field]` for the three exclusive record fields. -/
def Plugin.fieldMap (p : Plugin) : MergeField → Option (List (String × Nat))
  | .permissions => p.permissions
  | .actions => p.actions
  | .routes => p.routes

/-- The ownership tracer from `src/plugins/resolve.ts`: scan plugins in
order, break at the first plugin whose name equals `currentName`, return the
name of the first scanned plugin whose `field` record contains `key`; fall
back to the sentinel `"engine config"`. -/
def findOwner (plugins : List Plugin) (field : MergeField) (key : String)
    (currentName : String) : String :=
  match plugins with
  | [] => "engine config"
  | p :: rest =>
    if p.name = currentName then "engine config"
    else
      match p.fieldMap field with
      | some obj =>
        if recHas obj key then p.name else findOwner rest field key currentName
      | none => findOwner rest field key currentName

/-- One iteration of the inner roles loop: push `perm` unless already present
(`if (!resolved.roles[role].includes(perm)) push(perm)`). -/
def pushOne (acc : List String) (perm : String) : List String :=
  if perm ∈ acc then acc else acc ++ [perm]

/-- The inner `for (const perm of perms)` loop of the roles merge. -/
def mergeRolePerms (cur : List String) (perms : List String) : List String :=
  perms.foldl pushOne cur

/-- The `for (const [role, perms] of Object.entries(plugin.roles))` loop:
ensure the role exists in the accumulator, then union the permission list. -/
def mergeRoles (acc : List (String × List String)) :
    List (String × List String) → List (String × List String)
  | [] => acc
  | (role, perms) :: rest =>
    let acc1 := if recHas acc role then acc else acc ++ [(role, [])]
    let merged := mergeRolePerms ((recGet acc1 role).getD []) perms
    mergeRoles (recSet acc1 role merged) rest

/-- The `for (const [k, v] of Object.entries(...))` loops of the exclusive
fields (permissions / actions / routes): insert each entry, throwing a
`PluginConflictError` when the key is already present in the accumulator. -/
def insertEntries (kind : String) (field : MergeField) (plugins : List Plugin)
    (pluginName : String) (acc : List (String × Nat)) :
    List (String × Nat) → Except PluginConflictError (List (String × Nat))
  | [] => .ok acc
  | (key, v) :: rest =>
    if recHas acc key then
      .error ⟨kind, key, findOwner plugins field key pluginName, pluginName⟩
    else
      insertEntries kind field plugins pluginName (acc ++ [(key, v)]) rest

/-- The four lifecycle-hook pushes at the end of the per-plugin pass. -/
def pushHooks (h : Hooks) (p : Plugin) : Hooks :=
  { onInit := h.onInit ++ p.onInit.toList
    onRequest := h.onRequest ++ p.onRequest.toList
    onError := h.onError ++ p.onError.toList
    onShutdown := h.onShutdown ++ p.onShutdown.toList }

/-- The TS non-null assertion `authSource!`: erased at runtime, so an
undefined value would flow into the template literal and print as
`"undefined"`. -/
def assertDefined (o : Option String) : String :=
  o.getD "undefined"

/-- The accumulator literal built at the top of `resolvePlugins`. -/
def emptyResolved : ResolvedPlugins :=
  { integrations := []
    auth := none
    permissions := []
    roles := []
    actions := []
    middleware := []
    routes := []
    hooks := { onInit := [], onRequest := [], onError := [], onShutdown := [] } }

/-- The `-- auth (single provider)` block of the loop: set-once with the
`authSource` flag, throwing on a second provider (the thrown error applies
the TS non-null assertion `authSource!` to the flag). -/
def authResult (p : Plugin) (auth : Option AuthProvider)
    (authSource : Option String) :
    Except PluginConflictError (Option AuthProvider × Option String) :=
  match p.auth, auth with
  | some _, some _ =>
    .error ⟨"auth", "auth", assertDefined authSource, p.name⟩
  | some a, none => .ok (some a, some p.name)
  | none, _ => .ok (auth, authSource)

/-- The `-- permissions (merge, no duplicates)` block of the loop. -/
def permResult (plugins : List Plugin) (p : Plugin)
    (acc : List (String × Permission)) :
    Except PluginConflictError (List (String × Permission)) :=
  match p.permissions with
  | some entries =>
    insertEntries "permission" .permissions plugins p.name acc entries
  | none => .ok acc

/-- The `-- actions (merge, no duplicates)` block of the loop. -/
def actResult (plugins : List Plugin) (p : Plugin)
    (acc : List (String × ActionDefinition)) :
    Except PluginConflictError (List (String × ActionDefinition)) :=
  match p.actions with
  | some entries =>
    insertEntries "action" .actions plugins p.name acc entries
  | none => .ok acc

/-- The `-- routes (merge, no duplicates)` block of the loop. -/
def routeResult (plugins : List Plugin) (p : Plugin)
    (acc : List (String × RouteHandler)) :
    Except PluginConflictError (List (String × RouteHandler)) :=
  match p.routes with
  | some entries =>
    insertEntries "route" .routes plugins p.name acc entries
  | none => .ok acc

/-- The `-- roles (merge, union permission arrays)` block of the loop
(never throws). -/
def rolesResult (p : Plugin) (acc : List (String × List String)) :
    List (String × List String) :=
  match p.roles with
  | some entries => mergeRoles acc entries
  | none => acc

/-- One iteration of the `for (const plugin of plugins)` loop of
`resolvePlugins`: the state is the accumulator paired with the `authSource`
flag.  The blocks that can throw are evaluated in source order
(auth, permissions, actions, routes); the never-throwing blocks
(integrations, roles, middleware, hooks) are grouped into the final record,
which is observationally identical since a thrown conflict discards the
accumulator. -/
def resolveStep (plugins : List Plugin) (st : ResolvedPlugins × Option String)
    (p : Plugin) : Except PluginConflictError (ResolvedPlugins × Option String) :=
  match authResult p st.1.auth st.2 with
  | .error e => .error e
  | .ok auths =>
    match permResult plugins p st.1.permissions with
    | .error e => .error e
    | .ok permissions =>
      match actResult plugins p st.1.actions with
      | .error e => .error e
      | .ok actions =>
        match routeResult plugins p st.1.routes with
        | .error e => .error e
        | .ok routes =>
          .ok ({ integrations := st.1.integrations ++ p.integrations.getD []
                 auth := auths.1
                 permissions := permissions
                 roles := rolesResult p st.1.roles
                 actions := actions
                 middleware := st.1.middleware ++ p.middleware.getD []
                 routes := routes
                 hooks := pushHooks st.1.hooks p }, auths.2)

/-- The `for (const plugin of plugins)` loop: run the remaining plugins from
a given state, stopping at the first thrown conflict. -/
def runPlugins (plugins : List Plugin) (st : ResolvedPlugins × Option String) :
    List Plugin → Except PluginConflictError (ResolvedPlugins × Option String)
  | [] => .ok st
  | p :: rest =>
    match resolveStep plugins st p with
    | .error e => .error e
    | .ok st2 => runPlugins plugins st2 rest

/-- `resolvePlugins` from `src/plugins/resolve.ts`: run every plugin starting
from the empty accumulator and an unset `authSource`, returning the resolved
configuration or the first conflict. -/
def resolvePlugins (plugins : List Plugin) :
    Except PluginConflictError ResolvedPlugins :=
  match runPlugins plugins (emptyResolved, none) plugins with
  | .error e => .error e
  | .ok st => .ok st.1

/-! ### Specification-side vocabulary -/

/-- Keys of a record, in insertion order. -/
def entryKeys {α : Type} (m : List (String × α)) : List String :=
  m.map Prod.fst

/-- A descriptor's integration sequence (empty when the field is absent). -/
def integList (p : Plugin) : List IntegrationProvider :=
  p.integrations.getD []

/-- A descriptor's middleware sequence (empty when the field is absent). -/
def middlewareList (p : Plugin) : List PipelineMiddleware :=
  p.middleware.getD []

/-- A descriptor's permission entries (empty when the field is absent). -/
def permEntries (p : Plugin) : List (String × Permission) :=
  p.permissions.getD []

/-- A descriptor's action entries (empty when the field is absent). -/
def actEntries (p : Plugin) : List (String × ActionDefinition) :=
  p.actions.getD []

/-- A descriptor's route entries (empty when the field is absent). -/
def routeEntries (p : Plugin) : List (String × RouteHandler) :=
  p.routes.getD []

/-- A descriptor's `onInit` callback as a zero-or-one element list. -/
def initHookList (p : Plugin) : List Hook :=
  p.onInit.toList

/-- A descriptor's `onRequest` callback as a zero-or-one element list. -/
def requestHookList (p : Plugin) : List Hook :=
  p.onRequest.toList

/-- A descriptor's `onError` callback as a zero-or-one element list. -/
def errorHookList (p : Plugin) : List Hook :=
  p.onError.toList

/-- A descriptor's `onShutdown` callback as a zero-or-one element list. -/
def shutdownHookList (p : Plugin) : List Hook :=
  p.onShutdown.toList

/-- First-seen-order de-duplication: the spec's order-preserving union. -/
def dedupFS (xs : List String) : List String :=
  xs.foldl pushOne []

/-- All permission-slugs a roles record associates to one role, in order. -/
def rolePermsOfEntries (entries : List (String × List String))
    (role : String) : List String :=
  ((entries.filter (fun e => decide (e.1 = role))).map Prod.snd).flatten

/-- The permission-slug list a descriptor contributes to one role. -/
def rolePermsAt (role : String) (p : Plugin) : List String :=
  rolePermsOfEntries (p.roles.getD []) role

/-- JS-record well-formedness of a descriptor: an object literal cannot bind
the same key twice, so each contribution record has distinct keys. -/
def Plugin.WF (p : Plugin) : Prop :=
  (entryKeys (permEntries p)).Nodup ∧ (entryKeys (p.roles.getD [])).Nodup ∧
    (entryKeys (actEntries p)).Nodup ∧ (entryKeys (routeEntries p)).Nodup

/-- No key of the first record occurs in the second. -/
def keysDisjoint {α β : Type} (m1 : List (String × α))
    (m2 : List (String × β)) : Prop :=
  ∀ k ∈ entryKeys m1, k ∉ entryKeys m2

/-- No permission slug, action name, or route key is contributed by two
distinct descriptors of the sequence. -/
def KeyDisjoint (ps : List Plugin) : Prop :=
  ps.Pairwise (fun a b => keysDisjoint (permEntries a) (permEntries b)) ∧
    ps.Pairwise (fun a b => keysDisjoint (actEntries a) (actEntries b)) ∧
    ps.Pairwise (fun a b => keysDisjoint (routeEntries a) (routeEntries b))

/-- At most one descriptor of the sequence supplies `auth`. -/
def AuthAtMostOne (ps : List Plugin) : Prop :=
  ps.Pairwise (fun a b => ¬(a.auth.isSome = true ∧ b.auth.isSome = true))

/-- Number of descriptors supplying `auth`. -/
def authCount (ps : List Plugin) : Nat :=
  ps.countP (fun p => p.auth.isSome)

/-- How many more `auth` suppliers the accumulator can accept. -/
def authBudget (auth : Option AuthProvider) : Nat :=
  if auth.isSome then 0 else 1

/-- The keys contributed by `ps` under `f` are new w.r.t. `accKeys` and
mutually distinct: exactly the condition for the exclusive-field inserts of
a run to go through. -/
def FreshKeys (accKeys : List String) (ps : List Plugin)
    (f : Plugin → List (String × Nat)) : Prop :=
  (∀ k ∈ entryKeys ((ps.map f).flatten), k ∉ accKeys) ∧
    (entryKeys ((ps.map f).flatten)).Nodup

/-- All conditions for `runPlugins` to finish without a conflict from
accumulator `r`. -/
def CanRun (r : ResolvedPlugins) (ps : List Plugin) : Prop :=
  FreshKeys (entryKeys r.permissions) ps permEntries ∧
    FreshKeys (entryKeys r.actions) ps actEntries ∧
    FreshKeys (entryKeys r.routes) ps routeEntries ∧
    authCount ps ≤ authBudget r.auth

/-- The Ownership Tracer re-stated in the spec's words: truncate the
descriptor sequence at (not including) the first descriptor named like the
current one, return the name of the first truncated descriptor whose
contribution mapping contains the key, else the fallback sentinel. -/
def findOwnerSpec (plugins : List Plugin) (field : MergeField) (key : String)
    (currentName : String) : String :=
  match (plugins.takeWhile (fun p => decide (p.name ≠ currentName))).find?
      (fun p => decide (key ∈ entryKeys ((p.fieldMap field).getD []))) with
  | some p => p.name
  | none => "engine config"

/-- Erase a descriptor's role contributions. -/
def stripRoles (p : Plugin) : Plugin :=
  { p with roles := none }

/-- Erase the roles mapping of a resolved configuration. -/
def eraseRolesR (r : ResolvedPlugins) : ResolvedPlugins :=
  { r with roles := [] }

/-! ### Concrete descriptors used by witnesses and counterexamples -/

/-- Witness descriptor: a provider-rich plugin. -/
def exA : Plugin :=
  { name := "A"
    auth := some 7
    integrations := some [10, 11]
    permissions := some [("pa", 1)]
    roles := some [("editor", ["x", "y"])]
    actions := some [("act", 5)]
    middleware := some [30]
    routes := some [("GET /a", 40)]
    onInit := some 1 }

/-- Witness descriptor: disjoint from `exA`. -/
def exB : Plugin :=
  { name := "B"
    permissions := some [("pb", 2)]
    roles := some [("editor", ["y", "z"])]
    middleware := some [31, 32]
    integrations := some [12]
    onInit := some 2
    onShutdown := some 3 }

/-- Counterexample descriptor: supplies `auth` and slug `p`. -/
def cxA : Plugin :=
  { name := "A", auth := some 1, permissions := some [("p", 1)] }

/-- Counterexample descriptor: re-supplies slug `p`. -/
def cxB : Plugin :=
  { name := "B", permissions := some [("p", 2)] }

/-- Counterexample descriptor: second `auth` supplier. -/
def cxC : Plugin :=
  { name := "C", auth := some 2 }

/-- Witness descriptor: one role listing the same slug twice. -/
def exE : Plugin :=
  { name := "E", roles := some [("editor", ["x", "x"])] }

/-- The configuration `resolvePlugins [exA, exB]` produces. -/
def exR : ResolvedPlugins :=
  { integrations := [10, 11, 12]
    auth := some 7
    permissions := [("pa", 1), ("pb", 2)]
    roles := [("editor", ["x", "y", "z"])]
    actions := [("act", 5)]
    middleware := [30, 31, 32]
    routes := [("GET /a", 40)]
    hooks := { onInit := [1, 2], onRequest := [], onError := [], onShutdown := [3] } }

/-- The configuration `resolvePlugins [exE]` produces. -/
def exER : ResolvedPlugins :=
  { integrations := []
    auth := none
    permissions := []
    roles := [("editor", ["x"])]
    actions := []
    middleware := []
    routes := []
    hooks := { onInit := [], onRequest := [], onError := [], onShutdown := [] } }

instance (p : Plugin) : Decidable p.WF := by
  unfold Plugin.WF
  infer_instance

instance {α β : Type} (m1 : List (String × α)) (m2 : List (String × β)) :
    Decidable (keysDisjoint m1 m2) := by
  unfold keysDisjoint
  infer_instance

instance (ps : List Plugin) : Decidable (KeyDisjoint ps) := by
  unfold KeyDisjoint
  infer_instance

instance (ps : List Plugin) : Decidable (AuthAtMostOne ps) := by
  unfold AuthAtMostOne
  infer_instance

/-- Counterexample descriptor: named `X`, supplies slug `p`. -/
def dupX1 : Plugin :=
  { name := "X", permissions := some [("p", 1)] }

/-- Counterexample descriptor: also named `X`, re-supplies slug `p`. -/
def dupX2 : Plugin :=
  { name := "X", permissions := some [("p", 2)] }

/-- `n` is the name of the first descriptor in input order whose `f` record
contains the key `k`. -/
def FirstKeyOwner (ps : List Plugin) (f : MergeField) (k n : String) : Prop :=
  ∃ pre q suf, ps = pre ++ q :: suf ∧
    k ∈ entryKeys ((q.fieldMap f).getD []) ∧
    (∀ x ∈ pre, k ∉ entryKeys ((x.fieldMap f).getD [])) ∧ n = q.name

/-- `n` is the name of the first descriptor in input order that supplies
`auth`. -/
def FirstAuthOwner (ps : List Plugin) (n : String) : Prop :=
  ∃ pre q suf, ps = pre ++ q :: suf ∧ q.auth.isSome = true ∧
    (∀ x ∈ pre, x.auth = none) ∧ n = q.name

/-! ### Record lemmas -/

theorem entryKeys_append {α : Type} (m1 m2 : List (String × α)) :
    entryKeys (m1 ++ m2) = entryKeys m1 ++ entryKeys m2 :=
  List.map_append _ _ _

theorem recGet_isSome_iff {α : Type} (m : List (String × α)) (k : String) :
    (recGet m k).isSome = true ↔ k ∈ entryKeys m := by
  induction m with
  | nil => simp [recGet, entryKeys]
  | cons e rest ih =>
    obtain ⟨k0, v⟩ := e
    by_cases h : k0 = k <;> simp [recGet, entryKeys, h] at ih ⊢ <;> simp [ih]
    exact fun hk => (h hk.symm).elim

theorem recHas_iff {α : Type} (m : List (String × α)) (k : String) :
    recHas m k = true ↔ k ∈ entryKeys m := by
  rw [recHas]; exact recGet_isSome_iff m k

theorem recHas_false_iff {α : Type} (m : List (String × α)) (k : String) :
    recHas m k = false ↔ k ∉ entryKeys m := by
  rw [← Bool.not_eq_true, not_iff_not]; exact recHas_iff m k

theorem recGet_eq_none_iff {α : Type} (m : List (String × α)) (k : String) :
    recGet m k = none ↔ k ∉ entryKeys m := by
  constructor
  · intro h hk
    have hs := (recGet_isSome_iff m k).mpr hk
    simp [h] at hs
  · intro h
    cases h1 : recGet m k with
    | none => rfl
    | some v => exact absurd ((recGet_isSome_iff m k).mp (by simp [h1])) h

theorem recGet_append_of_some {α : Type} {m1 : List (String × α)} {k : String}
    {v : α} (m2 : List (String × α)) (h : recGet m1 k = some v) :
    recGet (m1 ++ m2) k = some v := by
  induction m1 with
  | nil => simp [recGet] at h
  | cons e rest ih =>
    obtain ⟨k0, v0⟩ := e
    by_cases hk : k0 = k <;> simp [recGet, hk] at h ⊢
    · exact h
    · exact ih h

theorem recGet_append_of_none {α : Type} {m1 : List (String × α)} {k : String}
    (m2 : List (String × α)) (h : recGet m1 k = none) :
    recGet (m1 ++ m2) k = recGet m2 k := by
  induction m1 with
  | nil => simp
  | cons e rest ih =>
    obtain ⟨k0, v0⟩ := e
    by_cases hk : k0 = k <;> simp [recGet, hk] at h ⊢
    exact ih h

theorem recGet_some_mem {α : Type} {m : List (String × α)} {k : String}
    {v : α} (h : recGet m k = some v) : (k, v) ∈ m := by
  induction m with
  | nil => simp [recGet] at h
  | cons e rest ih =>
    obtain ⟨k0, v0⟩ := e
    by_cases hk : k0 = k <;> simp [recGet, hk] at h
    · simp [← hk, h]
    · simp [ih h]

theorem recGet_of_mem_nodup {α : Type} {m : List (String × α)} {k : String}
    {v : α} (hn : (entryKeys m).Nodup) (h : (k, v) ∈ m) :
    recGet m k = some v := by
  induction m with
  | nil => simp at h
  | cons e rest ih =>
    obtain ⟨k0, v0⟩ := e
    simp only [entryKeys, List.map_cons, List.nodup_cons] at hn
    rcases List.mem_cons.mp h with h0 | h0
    · rw [Prod.mk.injEq] at h0
      obtain ⟨hk, hv⟩ := h0
      subst hk
      subst hv
      simp [recGet]
    · have hk0 : k0 ≠ k := by
        intro hk
        exact hn.1 (hk ▸ (List.mem_map.mpr ⟨(k, v), h0, rfl⟩))
      simp [recGet, hk0, ih hn.2 h0]

theorem recGet_eq_of_perm {α : Type} {m1 m2 : List (String × α)}
    (hp : m1.Perm m2) (hn : (entryKeys m1).Nodup) (k : String) :
    recGet m1 k = recGet m2 k := by
  cases h1 : recGet m1 k with
  | some v =>
    have hn2 : (entryKeys m2).Nodup := (hp.map Prod.fst).nodup_iff.mp hn
    exact (recGet_of_mem_nodup hn2 (hp.mem_iff.mp (recGet_some_mem h1))).symm
  | none =>
    have : k ∉ entryKeys m2 := by
      intro hk
      exact (recGet_eq_none_iff m1 k).mp h1 ((hp.map Prod.fst).mem_iff.mpr hk)
    exact ((recGet_eq_none_iff m2 k).mpr this).symm

theorem recGet_recSet_self {α : Type} (m : List (String × α)) (k : String)
    (v : α) : recGet (recSet m k v) k = some v := by
  induction m with
  | nil => simp [recGet, recSet]
  | cons e rest ih =>
    obtain ⟨k0, v0⟩ := e
    by_cases hk : k0 = k <;> simp [recSet, recGet, hk, ih]

theorem recGet_recSet_ne {α : Type} (m : List (String × α)) {k k' : String}
    (v : α) (h : k ≠ k') : recGet (recSet m k v) k' = recGet m k' := by
  induction m with
  | nil => simp [recGet, recSet, h]
  | cons e rest ih =>
    obtain ⟨k0, v0⟩ := e
    by_cases hk : k0 = k
    · subst hk
      simp [recSet, recGet, h]
    · by_cases hk' : k0 = k' <;> simp [recSet, recGet, hk, hk', ih, Ne.symm h]

/-! ### Roles-merge lemmas -/

theorem mem_pushOne (acc : List String) (x y : String) :
    y ∈ pushOne acc x ↔ y ∈ acc ∨ y = x := by
  by_cases h : x ∈ acc
  · simp only [pushOne, if_pos h]
    exact ⟨Or.inl, fun hy => hy.elim id (fun he => he ▸ h)⟩
  · simp [pushOne, h]

theorem mem_foldl_pushOne (xs : List String) (acc : List String) (y : String) :
    y ∈ xs.foldl pushOne acc ↔ y ∈ acc ∨ y ∈ xs := by
  induction xs generalizing acc with
  | nil => simp
  | cons x rest ih => simp [List.foldl_cons, ih, mem_pushOne, or_assoc]

theorem mem_mergeRolePerms (cur xs : List String) (y : String) :
    y ∈ mergeRolePerms cur xs ↔ y ∈ cur ∨ y ∈ xs :=
  mem_foldl_pushOne xs cur y

theorem mem_dedupFS (xs : List String) (y : String) :
    y ∈ dedupFS xs ↔ y ∈ xs := by
  simpa using mem_foldl_pushOne xs [] y

theorem mergeRolePerms_append (cur xs ys : List String) :
    mergeRolePerms cur (xs ++ ys) = mergeRolePerms (mergeRolePerms cur xs) ys := by
  simp [mergeRolePerms, List.foldl_append]

theorem rolePermsOfEntries_cons (r0 : String) (perms : List String)
    (rest : List (String × List String)) (role : String) :
    rolePermsOfEntries ((r0, perms) :: rest) role =
      (if r0 = role then perms else []) ++ rolePermsOfEntries rest role := by
  by_cases h : r0 = role <;> simp [rolePermsOfEntries, h]

theorem recGet_seed_self (acc : List (String × List String)) (r0 : String) :
    (recGet (if recHas acc r0 then acc else acc ++ [(r0, [])]) r0).getD [] =
      (recGet acc r0).getD [] := by
  by_cases h : recHas acc r0
  · simp [h]
  · have hn : recGet acc r0 = none := by
      rcases h1 : recGet acc r0 with _ | v
      · rfl
      · exact absurd (by simp [recHas, h1]) h
    simp [h, recGet_append_of_none _ hn, hn, recGet]

theorem recGet_seed_ne (acc : List (String × List String)) {r0 role : String}
    (h : r0 ≠ role) :
    recGet (if recHas acc r0 then acc else acc ++ [(r0, [])]) role =
      recGet acc role := by
  by_cases hh : recHas acc r0
  · simp [hh]
  · rcases h1 : recGet acc role with _ | v
    · simp [hh, recGet_append_of_none _ h1, recGet, h]
    · simp [hh, recGet_append_of_some _ h1, h1]

theorem recGet_mergeRoles (entries : List (String × List String))
    (acc : List (String × List String)) (role : String) :
    (recGet (mergeRoles acc entries) role).getD [] =
      mergeRolePerms ((recGet acc role).getD [])
        (rolePermsOfEntries entries role) := by
  induction entries generalizing acc with
  | nil => simp [mergeRoles, rolePermsOfEntries, mergeRolePerms]
  | cons e rest ih =>
    obtain ⟨r0, perms⟩ := e
    show (recGet (mergeRoles (recSet _ r0 _) rest) role).getD [] = _
    rw [ih]
    by_cases h : r0 = role
    · subst h
      rw [recGet_recSet_self, rolePermsOfEntries_cons]
      simp only [if_pos rfl, Option.getD_some, mergeRolePerms_append]
      rw [recGet_seed_self]
      simp
    · rw [recGet_recSet_ne _ _ h, recGet_seed_ne _ h, rolePermsOfEntries_cons]
      simp [h]

/-! ### Insert-loop lemmas -/

theorem forall_ne_iff_not_mem {l : List String} {k : String} :
    (∀ x ∈ l, x ≠ k) ↔ k ∉ l :=
  ⟨fun h hk => h k hk rfl, fun h x hx he => h (he ▸ hx)⟩

theorem insertEntries_ok_eq (kind : String) (f : MergeField)
    (ctx : List Plugin) (n : String) :
    ∀ (entries acc out : List (String × Nat)),
      insertEntries kind f ctx n acc entries = .ok out → out = acc ++ entries := by
  intro entries
  induction entries with
  | nil =>
    intro acc out h
    simp [insertEntries] at h
    simp [h]
  | cons e rest ih =>
    obtain ⟨k, v⟩ := e
    intro acc out h
    by_cases hk : recHas acc k
    · simp [insertEntries, hk] at h
    · simp only [insertEntries, hk, Bool.false_eq_true, if_false] at h
      rw [ih _ _ h]
      simp

theorem mem_entryKeys_append_single {α : Type} (acc : List (String × α))
    (k x : String) (v : α) :
    x ∈ entryKeys (acc ++ [(k, v)]) ↔ x ∈ entryKeys acc ∨ x = k := by
  simp [entryKeys]

theorem mem_entryKeys_cons {α : Type} (rest : List (String × α))
    (k x : String) (v : α) :
    x ∈ entryKeys ((k, v) :: rest) ↔ x = k ∨ x ∈ entryKeys rest := by
  simp [entryKeys]

theorem nodup_entryKeys_cons {α : Type} (rest : List (String × α))
    (k : String) (v : α) :
    (entryKeys ((k, v) :: rest)).Nodup ↔
      k ∉ entryKeys rest ∧ (entryKeys rest).Nodup := by
  simp [entryKeys, List.nodup_cons]

theorem insertEntries_ok_iff (kind : String) (f : MergeField)
    (ctx : List Plugin) (n : String) :
    ∀ (entries acc : List (String × Nat)),
      (∃ out, insertEntries kind f ctx n acc entries = .ok out) ↔
        ((∀ k ∈ entryKeys entries, k ∉ entryKeys acc) ∧
          (entryKeys entries).Nodup) := by
  intro entries
  induction entries with
  | nil =>
    intro acc
    simp [insertEntries, entryKeys]
  | cons e rest ih =>
    obtain ⟨k, v⟩ := e
    intro acc
    by_cases hk : recHas acc k
    · constructor
      · rintro ⟨out, hout⟩
        simp [insertEntries, hk] at hout
      · rintro ⟨hfresh, _⟩
        exact absurd ((recHas_iff acc k).mp hk)
          (hfresh k ((mem_entryKeys_cons rest k k v).mpr (Or.inl rfl)))
    · have hknot : k ∉ entryKeys acc := (recHas_false_iff acc k).mp (by simpa using hk)
      simp only [insertEntries, hk, Bool.false_eq_true, if_false]
      rw [ih]
      constructor
      · rintro ⟨hfresh, hnd⟩
        refine ⟨?_, ?_⟩
        · intro x hx
          rcases (mem_entryKeys_cons rest k x v).mp hx with hxk | hxr
          · exact hxk ▸ hknot
          · exact fun hmem =>
              (hfresh x hxr) ((mem_entryKeys_append_single acc k x v).mpr (Or.inl hmem))
        · rw [nodup_entryKeys_cons]
          refine ⟨?_, hnd⟩
          rw [← forall_ne_iff_not_mem]
          intro x hx he
          exact (hfresh x hx) ((mem_entryKeys_append_single acc k x v).mpr (Or.inr he))
      · rintro ⟨hfresh, hnd⟩
        rw [nodup_entryKeys_cons] at hnd
        refine ⟨?_, hnd.2⟩
        intro x hx hmem
        rcases (mem_entryKeys_append_single acc k x v).mp hmem with hmem2 | he
        · exact (hfresh x ((mem_entryKeys_cons rest k x v).mpr (Or.inr hx))) hmem2
        · exact hnd.1 (he ▸ hx)

theorem insertEntries_error_fields (kind : String) (f : MergeField)
    (ctx : List Plugin) (n : String) :
    ∀ (entries acc : List (String × Nat)) (e : PluginConflictError),
      insertEntries kind f ctx n acc entries = .error e →
        e.kind = kind ∧ e.pluginB = n := by
  intro entries
  induction entries with
  | nil =>
    intro acc e h
    simp [insertEntries] at h
  | cons ent rest ih =>
    obtain ⟨k, v⟩ := ent
    intro acc e h
    by_cases hk : recHas acc k
    · simp only [insertEntries, hk, if_true] at h
      injection h with h1
      subst h1
      exact ⟨rfl, rfl⟩
    · simp only [insertEntries, hk, Bool.false_eq_true, if_false] at h
      exact ih _ _ h

theorem insertEntries_congr_ctx (kind : String) (f : MergeField) (n : String)
    {ctx ctx2 : List Plugin}
    (h : ∀ k, findOwner ctx f k n = findOwner ctx2 f k n) :
    ∀ (entries acc : List (String × Nat)),
      insertEntries kind f ctx n acc entries =
        insertEntries kind f ctx2 n acc entries := by
  intro entries
  induction entries with
  | nil => intro acc; rfl
  | cons ent rest ih =>
    obtain ⟨k, v⟩ := ent
    intro acc
    by_cases hk : recHas acc k <;>
      simp only [insertEntries, hk, if_true, Bool.false_eq_true, if_false, h k, ih]

/-! ### Step lemmas -/

theorem authResult_ok_iff (p : Plugin) (auth : Option AuthProvider)
    (as : Option String) :
    (∃ au, authResult p auth as = .ok au) ↔
      ¬(p.auth.isSome = true ∧ auth.isSome = true) := by
  cases hp : p.auth <;> cases ha : auth <;> simp [authResult, hp, ha]

theorem authResult_error (p : Plugin) {auth : Option AuthProvider}
    {as : Option String} (hp : p.auth.isSome = true) (ha : auth.isSome = true) :
    authResult p auth as = .error ⟨"auth", "auth", assertDefined as, p.name⟩ := by
  cases hp2 : p.auth <;> cases ha2 : auth <;> simp_all [authResult]

theorem authResult_ok_of_none {p : Plugin} (auth : Option AuthProvider)
    (as : Option String) (h : p.auth = none) :
    authResult p auth as = .ok (auth, as) := by
  simp [authResult, h]

theorem authResult_ok_of_some {p : Plugin} {a : AuthProvider}
    (as : Option String) (h : p.auth = some a) :
    authResult p none as = .ok (some a, some p.name) := by
  simp [authResult, h]

theorem resolveStep_ok_intro {ctx : List Plugin}
    {st : ResolvedPlugins × Option String} {p : Plugin}
    {au : Option AuthProvider × Option String} {pe : List (String × Permission)}
    {ac : List (String × ActionDefinition)} {ro : List (String × RouteHandler)}
    (h1 : authResult p st.1.auth st.2 = .ok au)
    (h2 : permResult ctx p st.1.permissions = .ok pe)
    (h3 : actResult ctx p st.1.actions = .ok ac)
    (h4 : routeResult ctx p st.1.routes = .ok ro) :
    resolveStep ctx st p = .ok
      ({ integrations := st.1.integrations ++ integList p
         auth := au.1
         permissions := pe
         roles := rolesResult p st.1.roles
         actions := ac
         middleware := st.1.middleware ++ middlewareList p
         routes := ro
         hooks := pushHooks st.1.hooks p }, au.2) := by
  simp only [resolveStep, h1, h2, h3, h4]
  rfl

theorem resolveStep_ok_spec {ctx : List Plugin}
    {st : ResolvedPlugins × Option String} {p : Plugin}
    {st' : ResolvedPlugins × Option String}
    (h : resolveStep ctx st p = .ok st') :
    authResult p st.1.auth st.2 = .ok (st'.1.auth, st'.2) ∧
      permResult ctx p st.1.permissions = .ok st'.1.permissions ∧
      actResult ctx p st.1.actions = .ok st'.1.actions ∧
      routeResult ctx p st.1.routes = .ok st'.1.routes ∧
      st'.1.integrations = st.1.integrations ++ integList p ∧
      st'.1.roles = rolesResult p st.1.roles ∧
      st'.1.middleware = st.1.middleware ++ middlewareList p ∧
      st'.1.hooks = pushHooks st.1.hooks p := by
  rcases h1 : authResult p st.1.auth st.2 with e | au
  · have hstep : resolveStep ctx st p = .error e := by simp only [resolveStep, h1]
    rw [hstep] at h
    exact Except.noConfusion h
  · rcases h2 : permResult ctx p st.1.permissions with e2 | pe
    · have hstep : resolveStep ctx st p = .error e2 := by
        simp only [resolveStep, h1, h2]
      rw [hstep] at h
      exact Except.noConfusion h
    · rcases h3 : actResult ctx p st.1.actions with e3 | ac
      · have hstep : resolveStep ctx st p = .error e3 := by
          simp only [resolveStep, h1, h2, h3]
        rw [hstep] at h
        exact Except.noConfusion h
      · rcases h4 : routeResult ctx p st.1.routes with e4 | ro
        · have hstep : resolveStep ctx st p = .error e4 := by
            simp only [resolveStep, h1, h2, h3, h4]
          rw [hstep] at h
          exact Except.noConfusion h
        · rw [resolveStep_ok_intro h1 h2 h3 h4] at h
          injection h with h5
          subst h5
          exact ⟨rfl, rfl, rfl, rfl, rfl, rfl, rfl, rfl⟩

theorem resolveStep_error_spec {ctx : List Plugin}
    {st : ResolvedPlugins × Option String} {p : Plugin}
    {e : PluginConflictError} (h : resolveStep ctx st p = .error e) :
    authResult p st.1.auth st.2 = .error e ∨
      (∃ au, authResult p st.1.auth st.2 = .ok au ∧
        (permResult ctx p st.1.permissions = .error e ∨
          (∃ pe, permResult ctx p st.1.permissions = .ok pe ∧
            (actResult ctx p st.1.actions = .error e ∨
              (∃ ac, actResult ctx p st.1.actions = .ok ac ∧
                routeResult ctx p st.1.routes = .error e))))) := by
  rcases h1 : authResult p st.1.auth st.2 with e1 | au
  · have hstep : resolveStep ctx st p = .error e1 := by simp only [resolveStep, h1]
    rw [hstep] at h
    injection h with h5
    subst h5
    exact Or.inl rfl
  · rcases h2 : permResult ctx p st.1.permissions with e2 | pe
    · have hstep : resolveStep ctx st p = .error e2 := by
        simp only [resolveStep, h1, h2]
      rw [hstep] at h
      injection h with h5
      subst h5
      exact Or.inr ⟨au, rfl, Or.inl rfl⟩
    · rcases h3 : actResult ctx p st.1.actions with e3 | ac
      · have hstep : resolveStep ctx st p = .error e3 := by
          simp only [resolveStep, h1, h2, h3]
        rw [hstep] at h
        injection h with h5
        subst h5
        exact Or.inr ⟨au, rfl, Or.inr ⟨pe, rfl, Or.inl rfl⟩⟩
      · rcases h4 : routeResult ctx p st.1.routes with e4 | ro
        · have hstep : resolveStep ctx st p = .error e4 := by
            simp only [resolveStep, h1, h2, h3, h4]
          rw [hstep] at h
          injection h with h5
          subst h5
          exact Or.inr ⟨au, rfl, Or.inr ⟨pe, rfl, Or.inr ⟨ac, rfl, rfl⟩⟩⟩
        · rw [resolveStep_ok_intro h1 h2 h3 h4] at h
          exact Except.noConfusion h

theorem resolveStep_error_auth {ctx : List Plugin}
    {st : ResolvedPlugins × Option String} {p : Plugin}
    (hp : p.auth.isSome = true) (ha : st.1.auth.isSome = true) :
    resolveStep ctx st p = .error ⟨"auth", "auth", assertDefined st.2, p.name⟩ := by
  simp only [resolveStep, authResult_error p hp ha]

/-! ### Run lemmas -/

theorem runPlugins_nil (ctx : List Plugin) (st : ResolvedPlugins × Option String) :
    runPlugins ctx st [] = .ok st := rfl

theorem runPlugins_cons_ok {ctx : List Plugin}
    {st st2 : ResolvedPlugins × Option String} {p : Plugin}
    (h : resolveStep ctx st p = .ok st2) (rest : List Plugin) :
    runPlugins ctx st (p :: rest) = runPlugins ctx st2 rest := by
  simp [runPlugins, h]

theorem runPlugins_cons_error {ctx : List Plugin}
    {st : ResolvedPlugins × Option String} {p : Plugin} {e : PluginConflictError}
    (h : resolveStep ctx st p = .error e) (rest : List Plugin) :
    runPlugins ctx st (p :: rest) = .error e := by
  simp [runPlugins, h]

theorem runPlugins_append (ctx : List Plugin)
    (st : ResolvedPlugins × Option String) (l1 l2 : List Plugin) :
    runPlugins ctx st (l1 ++ l2) =
      match runPlugins ctx st l1 with
      | .error e => .error e
      | .ok st1 => runPlugins ctx st1 l2 := by
  induction l1 generalizing st with
  | nil => simp [runPlugins]
  | cons p rest ih =>
    rcases h : resolveStep ctx st p with e | st2
    · simp [runPlugins, h]
    · simp [runPlugins, h, ih]

theorem runPlugins_error_split {ctx : List Plugin}
    {st : ResolvedPlugins × Option String} {ps : List Plugin}
    {e : PluginConflictError} (h : runPlugins ctx st ps = .error e) :
    ∃ pre p suf st1, ps = pre ++ p :: suf ∧ runPlugins ctx st pre = .ok st1 ∧
      resolveStep ctx st1 p = .error e := by
  induction ps generalizing st with
  | nil => simp [runPlugins] at h
  | cons q rest ih =>
    rcases h1 : resolveStep ctx st q with e1 | st2
    · rw [runPlugins_cons_error h1 rest] at h
      injection h with h2
      exact ⟨[], q, rest, st, rfl, rfl, h2 ▸ h1⟩
    · rw [runPlugins_cons_ok h1 rest] at h
      obtain ⟨pre, p, suf, st1, hps, hrun, hstep⟩ := ih h
      exact ⟨q :: pre, p, suf, st1, by simp [hps],
        by rw [runPlugins_cons_ok h1 pre]; exact hrun, hstep⟩

/-! ### Context-independence of successful steps, and prefix stability -/

theorem insertEntries_ok_ctx (kind : String) (f : MergeField) (n : String)
    {ctx ctx2 : List Plugin} :
    ∀ {entries acc out : List (String × Nat)},
      insertEntries kind f ctx n acc entries = .ok out →
        insertEntries kind f ctx2 n acc entries = .ok out := by
  intro entries
  induction entries with
  | nil =>
    intro acc out h
    simpa [insertEntries] using h
  | cons ent rest ih =>
    obtain ⟨k, v⟩ := ent
    intro acc out h
    by_cases hk : recHas acc k
    · simp [insertEntries, hk] at h
    · simp only [insertEntries, hk, Bool.false_eq_true, if_false] at h ⊢
      exact ih h

theorem permResult_ok_ctx {ctx ctx2 : List Plugin} {p : Plugin}
    {acc out : List (String × Permission)}
    (h : permResult ctx p acc = .ok out) : permResult ctx2 p acc = .ok out := by
  cases hp : p.permissions <;> simp only [permResult, hp] at h ⊢
  · exact h
  · exact insertEntries_ok_ctx "permission" .permissions p.name h

theorem actResult_ok_ctx {ctx ctx2 : List Plugin} {p : Plugin}
    {acc out : List (String × ActionDefinition)}
    (h : actResult ctx p acc = .ok out) : actResult ctx2 p acc = .ok out := by
  cases hp : p.actions <;> simp only [actResult, hp] at h ⊢
  · exact h
  · exact insertEntries_ok_ctx "action" .actions p.name h

theorem routeResult_ok_ctx {ctx ctx2 : List Plugin} {p : Plugin}
    {acc out : List (String × RouteHandler)}
    (h : routeResult ctx p acc = .ok out) : routeResult ctx2 p acc = .ok out := by
  cases hp : p.routes <;> simp only [routeResult, hp] at h ⊢
  · exact h
  · exact insertEntries_ok_ctx "route" .routes p.name h

theorem resolveStep_ok_ctx {ctx ctx2 : List Plugin}
    {st : ResolvedPlugins × Option String} {p : Plugin}
    {st' : ResolvedPlugins × Option String}
    (h : resolveStep ctx st p = .ok st') : resolveStep ctx2 st p = .ok st' := by
  rcases h1 : authResult p st.1.auth st.2 with e | au
  · have hstep : resolveStep ctx st p = .error e := by simp only [resolveStep, h1]
    rw [hstep] at h
    exact Except.noConfusion h
  · rcases h2 : permResult ctx p st.1.permissions with e2 | pe
    · have hstep : resolveStep ctx st p = .error e2 := by
        simp only [resolveStep, h1, h2]
      rw [hstep] at h
      exact Except.noConfusion h
    · rcases h3 : actResult ctx p st.1.actions with e3 | ac
      · have hstep : resolveStep ctx st p = .error e3 := by
          simp only [resolveStep, h1, h2, h3]
        rw [hstep] at h
        exact Except.noConfusion h
      · rcases h4 : routeResult ctx p st.1.routes with e4 | ro
        · have hstep : resolveStep ctx st p = .error e4 := by
            simp only [resolveStep, h1, h2, h3, h4]
          rw [hstep] at h
          exact Except.noConfusion h
        · rw [resolveStep_ok_intro h1 h2 h3 h4] at h
          have h2b : permResult ctx2 p st.1.permissions = .ok pe :=
            permResult_ok_ctx h2
          have h3b : actResult ctx2 p st.1.actions = .ok ac :=
            actResult_ok_ctx h3
          have h4b : routeResult ctx2 p st.1.routes = .ok ro :=
            routeResult_ok_ctx h4
          rw [resolveStep_ok_intro h1 h2b h3b h4b]
          exact h

theorem runPlugins_ok_ctx {ctx ctx2 : List Plugin}
    {st st' : ResolvedPlugins × Option String} {ps : List Plugin}
    (h : runPlugins ctx st ps = .ok st') : runPlugins ctx2 st ps = .ok st' := by
  induction ps generalizing st with
  | nil => simpa [runPlugins] using h
  | cons p rest ih =>
    rcases h1 : resolveStep ctx st p with e | st2
    · rw [runPlugins_cons_error h1 rest] at h
      exact absurd h (by simp)
    · rw [runPlugins_cons_ok h1 rest] at h
      have h1b : resolveStep ctx2 st p = .ok st2 := resolveStep_ok_ctx h1
      rw [runPlugins_cons_ok h1b rest]
      exact ih h

theorem findOwner_stable (pre : List Plugin) (p : Plugin)
    (suf suf2 : List Plugin) (f : MergeField) (k : String) :
    findOwner (pre ++ p :: suf) f k p.name =
      findOwner (pre ++ p :: suf2) f k p.name := by
  induction pre with
  | nil => simp [findOwner]
  | cons q rest ih =>
    by_cases hq : q.name = p.name
    · simp [findOwner, hq]
    · cases hf : q.fieldMap f with
      | none => simp [findOwner, hq, hf, ih]
      | some obj => by_cases hk : recHas obj k <;> simp [findOwner, hq, hf, hk, ih]

theorem resolveStep_congr_ctx {ctx ctx2 : List Plugin} {p : Plugin}
    (st : ResolvedPlugins × Option String)
    (h : ∀ f k, findOwner ctx f k p.name = findOwner ctx2 f k p.name) :
    resolveStep ctx st p = resolveStep ctx2 st p := by
  have hperm : permResult ctx p st.1.permissions = permResult ctx2 p st.1.permissions := by
    cases hp : p.permissions <;>
      simp [permResult, hp,
        insertEntries_congr_ctx "permission" .permissions p.name (fun k => h _ k)]
  have hact : actResult ctx p st.1.actions = actResult ctx2 p st.1.actions := by
    cases hp : p.actions <;>
      simp [actResult, hp,
        insertEntries_congr_ctx "action" .actions p.name (fun k => h _ k)]
  have hroute : routeResult ctx p st.1.routes = routeResult ctx2 p st.1.routes := by
    cases hp : p.routes <;>
      simp [routeResult, hp,
        insertEntries_congr_ctx "route" .routes p.name (fun k => h _ k)]
  simp only [resolveStep, hperm, hact, hroute]


/-! ### Per-field result lemmas -/

theorem permResult_ok_eq {ctx : List Plugin} {p : Plugin}
    {acc out : List (String × Permission)}
    (h : permResult ctx p acc = .ok out) : out = acc ++ permEntries p := by
  cases hp : p.permissions with
  | none =>
    simp only [permResult, hp] at h
    injection h with h5
    simp [permEntries, hp, ← h5]
  | some entries =>
    simp only [permResult, hp] at h
    have := insertEntries_ok_eq "permission" .permissions ctx p.name entries acc out h
    rw [this]
    simp [permEntries, hp]

theorem actResult_ok_eq {ctx : List Plugin} {p : Plugin}
    {acc out : List (String × ActionDefinition)}
    (h : actResult ctx p acc = .ok out) : out = acc ++ actEntries p := by
  cases hp : p.actions with
  | none =>
    simp only [actResult, hp] at h
    injection h with h5
    simp [actEntries, hp, ← h5]
  | some entries =>
    simp only [actResult, hp] at h
    have := insertEntries_ok_eq "action" .actions ctx p.name entries acc out h
    rw [this]
    simp [actEntries, hp]

theorem routeResult_ok_eq {ctx : List Plugin} {p : Plugin}
    {acc out : List (String × RouteHandler)}
    (h : routeResult ctx p acc = .ok out) : out = acc ++ routeEntries p := by
  cases hp : p.routes with
  | none =>
    simp only [routeResult, hp] at h
    injection h with h5
    simp [routeEntries, hp, ← h5]
  | some entries =>
    simp only [routeResult, hp] at h
    have := insertEntries_ok_eq "route" .routes ctx p.name entries acc out h
    rw [this]
    simp [routeEntries, hp]

theorem permResult_ok_iff (ctx : List Plugin) (p : Plugin)
    (acc : List (String × Permission)) :
    (∃ out, permResult ctx p acc = .ok out) ↔
      ((∀ k ∈ entryKeys (permEntries p), k ∉ entryKeys acc) ∧
        (entryKeys (permEntries p)).Nodup) := by
  cases hp : p.permissions with
  | none => simp [permResult, hp, permEntries, entryKeys]
  | some entries =>
    simp only [permResult, hp, permEntries]
    exact insertEntries_ok_iff "permission" .permissions ctx p.name entries acc

theorem actResult_ok_iff (ctx : List Plugin) (p : Plugin)
    (acc : List (String × ActionDefinition)) :
    (∃ out, actResult ctx p acc = .ok out) ↔
      ((∀ k ∈ entryKeys (actEntries p), k ∉ entryKeys acc) ∧
        (entryKeys (actEntries p)).Nodup) := by
  cases hp : p.actions with
  | none => simp [actResult, hp, actEntries, entryKeys]
  | some entries =>
    simp only [actResult, hp, actEntries]
    exact insertEntries_ok_iff "action" .actions ctx p.name entries acc

theorem routeResult_ok_iff (ctx : List Plugin) (p : Plugin)
    (acc : List (String × RouteHandler)) :
    (∃ out, routeResult ctx p acc = .ok out) ↔
      ((∀ k ∈ entryKeys (routeEntries p), k ∉ entryKeys acc) ∧
        (entryKeys (routeEntries p)).Nodup) := by
  cases hp : p.routes with
  | none => simp [routeResult, hp, routeEntries, entryKeys]
  | some entries =>
    simp only [routeResult, hp, routeEntries]
    exact insertEntries_ok_iff "route" .routes ctx p.name entries acc

/-! ### Field characterisation of successful runs -/

theorem runPlugins_ok_fields {ctx : List Plugin}
    {st st' : ResolvedPlugins × Option String} {ps : List Plugin}
    (h : runPlugins ctx st ps = .ok st') :
    st'.1.integrations = st.1.integrations ++ (ps.map integList).flatten ∧
      st'.1.middleware = st.1.middleware ++ (ps.map middlewareList).flatten ∧
      st'.1.permissions = st.1.permissions ++ (ps.map permEntries).flatten ∧
      st'.1.actions = st.1.actions ++ (ps.map actEntries).flatten ∧
      st'.1.routes = st.1.routes ++ (ps.map routeEntries).flatten ∧
      st'.1.hooks.onInit = st.1.hooks.onInit ++ (ps.map initHookList).flatten ∧
      st'.1.hooks.onRequest =
        st.1.hooks.onRequest ++ (ps.map requestHookList).flatten ∧
      st'.1.hooks.onError = st.1.hooks.onError ++ (ps.map errorHookList).flatten ∧
      st'.1.hooks.onShutdown =
        st.1.hooks.onShutdown ++ (ps.map shutdownHookList).flatten ∧
      st'.1.roles = ps.foldl (fun acc p => rolesResult p acc) st.1.roles := by
  induction ps generalizing st with
  | nil =>
    rw [runPlugins_nil] at h
    injection h with h5
    subst h5
    simp
  | cons p rest ih =>
    rcases h1 : resolveStep ctx st p with e | st2
    · rw [runPlugins_cons_error h1 rest] at h
      exact Except.noConfusion h
    · rw [runPlugins_cons_ok h1 rest] at h
      obtain ⟨_, hperm, hact, hroute, hint, hrol, hmid, hhok⟩ := resolveStep_ok_spec h1
      obtain ⟨c1, c2, c3, c4, c5, c6, c7, c8, c9, c10⟩ := ih h
      refine ⟨?_, ?_, ?_, ?_, ?_, ?_, ?_, ?_, ?_, ?_⟩
      · rw [c1, hint]
        simp [integList]
      · rw [c2, hmid]
        simp [middlewareList]
      · rw [c3, permResult_ok_eq hperm]
        simp
      · rw [c4, actResult_ok_eq hact]
        simp
      · rw [c5, routeResult_ok_eq hroute]
        simp
      · rw [c6, hhok]
        simp [pushHooks, initHookList]
      · rw [c7, hhok]
        simp [pushHooks, requestHookList]
      · rw [c8, hhok]
        simp [pushHooks, errorHookList]
      · rw [c9, hhok]
        simp [pushHooks, shutdownHookList]
      · rw [c10, hrol]
        simp [List.foldl_cons]

/-! ### Auth tracking -/

theorem runPlugins_auth_none {ctx : List Plugin}
    {st st' : ResolvedPlugins × Option String} {ps : List Plugin}
    (hps : ∀ q ∈ ps, q.auth = none) (h : runPlugins ctx st ps = .ok st') :
    st'.1.auth = st.1.auth ∧ st'.2 = st.2 := by
  induction ps generalizing st with
  | nil =>
    rw [runPlugins_nil] at h
    injection h with h5
    subst h5
    exact ⟨rfl, rfl⟩
  | cons p rest ih =>
    rcases h1 : resolveStep ctx st p with e | st2
    · rw [runPlugins_cons_error h1 rest] at h
      exact Except.noConfusion h
    · rw [runPlugins_cons_ok h1 rest] at h
      obtain ⟨ha, _, _, _, _, _, _, _⟩ := resolveStep_ok_spec h1
      rw [authResult_ok_of_none _ _ (hps p (List.mem_cons_self p rest))] at ha
      injection ha with h5
      rw [Prod.mk.injEq] at h5
      obtain ⟨e1, e2⟩ := h5
      obtain ⟨f1, f2⟩ := ih (fun q hq => hps q (List.mem_cons_of_mem p hq)) h
      exact ⟨f1.trans e1.symm, f2.trans e2.symm⟩

theorem runPlugins_auth_track {ctx : List Plugin}
    {st st' : ResolvedPlugins × Option String} {ps : List Plugin}
    (h : runPlugins ctx st ps = .ok st')
    (hinv : st.1.auth.isSome = st.2.isSome) :
    st'.1.auth.isSome = st'.2.isSome ∧
      (st'.2 = st.2 ∨
        ∃ q, q ∈ ps ∧ q.auth.isSome = true ∧ st'.2 = some q.name) := by
  induction ps generalizing st with
  | nil =>
    rw [runPlugins_nil] at h
    injection h with h5
    subst h5
    exact ⟨hinv, Or.inl rfl⟩
  | cons p rest ih =>
    rcases h1 : resolveStep ctx st p with e | st2
    · rw [runPlugins_cons_error h1 rest] at h
      exact Except.noConfusion h
    · rw [runPlugins_cons_ok h1 rest] at h
      obtain ⟨ha, _, _, _, _, _, _, _⟩ := resolveStep_ok_spec h1
      cases hp : p.auth with
      | none =>
        rw [authResult_ok_of_none _ _ hp] at ha
        injection ha with h5
        rw [Prod.mk.injEq] at h5
        obtain ⟨e1, e2⟩ := h5
        have hinv2 : st2.1.auth.isSome = st2.2.isSome := by
          rw [← e1, ← e2]
          exact hinv
        obtain ⟨g1, g2⟩ := ih h hinv2
        refine ⟨g1, ?_⟩
        rcases g2 with g2 | ⟨q, hq, hqa, hqn⟩
        · exact Or.inl (g2.trans e2.symm)
        · exact Or.inr ⟨q, List.mem_cons_of_mem p hq, hqa, hqn⟩
      | some a =>
        cases hauth : st.1.auth with
        | some b =>
          rw [authResult_error p (by simp [hp]) (by simp [hauth])] at ha
          exact Except.noConfusion ha
        | none =>
          rw [hauth, authResult_ok_of_some st.2 hp] at ha
          injection ha with h5
          rw [Prod.mk.injEq] at h5
          obtain ⟨e1, e2⟩ := h5
          have hinv2 : st2.1.auth.isSome = st2.2.isSome := by
            rw [← e1, ← e2]
            rfl
          obtain ⟨g1, g2⟩ := ih h hinv2
          refine ⟨g1, ?_⟩
          rcases g2 with g2 | ⟨q, hq, hqa, hqn⟩
          · exact Or.inr ⟨p, List.mem_cons_self p rest, by simp [hp],
              g2.trans e2.symm⟩
          · exact Or.inr ⟨q, List.mem_cons_of_mem p hq, hqa, hqn⟩

/-! ### The success condition -/

theorem freshKeys_cons (A : List String) (p : Plugin) (rest : List Plugin)
    (f : Plugin → List (String × Nat)) :
    FreshKeys A (p :: rest) f ↔
      ((∀ k ∈ entryKeys (f p), k ∉ A) ∧ (entryKeys (f p)).Nodup ∧
        FreshKeys (A ++ entryKeys (f p)) rest f) := by
  unfold FreshKeys
  rw [List.map_cons, List.flatten_cons, entryKeys_append]
  constructor
  · rintro ⟨hA, hnd⟩
    rw [List.nodup_append] at hnd
    obtain ⟨h1, h2, h3⟩ := hnd
    refine ⟨fun k hk => hA k (List.mem_append.mpr (Or.inl hk)), h1, ?_, h2⟩
    intro k hk hk2
    rcases List.mem_append.mp hk2 with hk3 | hk3
    · exact hA k (List.mem_append.mpr (Or.inr hk)) hk3
    · exact h3 hk3 hk
  · rintro ⟨hA1, hnd1, hfr, hnd2⟩
    constructor
    · intro k hk
      rcases List.mem_append.mp hk with hk | hk
      · exact hA1 k hk
      · intro hkA
        exact (hfr k hk) (List.mem_append.mpr (Or.inl hkA))
    · rw [List.nodup_append]
      refine ⟨hnd1, hnd2, ?_⟩
      intro a ha har
      exact (hfr a har) (List.mem_append.mpr (Or.inr ha))

theorem authCount_cons (p : Plugin) (rest : List Plugin) :
    authCount (p :: rest) =
      (if p.auth.isSome then 1 else 0) + authCount rest := by
  simp [authCount, List.countP_cons]
  by_cases h : p.auth.isSome = true <;> simp [h, Nat.add_comm]

theorem runPlugins_ok_iff (ctx : List Plugin) (ps : List Plugin) :
    ∀ (r : ResolvedPlugins) (as : Option String),
      (∃ st', runPlugins ctx (r, as) ps = .ok st') ↔ CanRun r ps := by
  induction ps with
  | nil =>
    intro r as
    simp [runPlugins_nil, CanRun, FreshKeys, authCount, entryKeys]
  | cons p rest ih =>
    intro r as
    constructor
    · rintro ⟨st', h⟩
      rcases h1 : resolveStep ctx (r, as) p with e | st2
      · rw [runPlugins_cons_error h1 rest] at h
        exact Except.noConfusion h
      · rw [runPlugins_cons_ok h1 rest] at h
        obtain ⟨ha, hperm, hact, hroute, _, _, _, _⟩ := resolveStep_ok_spec h1
        have ha2 : authResult p r.auth as = .ok (st2.1.auth, st2.2) := ha
        have hperm2 : permResult ctx p r.permissions = .ok st2.1.permissions := hperm
        have hact2 : actResult ctx p r.actions = .ok st2.1.actions := hact
        have hroute2 : routeResult ctx p r.routes = .ok st2.1.routes := hroute
        have hrest : CanRun st2.1 rest := (ih st2.1 st2.2).mp ⟨st', by simpa using h⟩
        obtain ⟨hrP, hrA, hrR, hrAuth⟩ := hrest
        obtain ⟨fP, nP⟩ := (permResult_ok_iff ctx p r.permissions).mp
          ⟨st2.1.permissions, hperm2⟩
        obtain ⟨fA, nA⟩ := (actResult_ok_iff ctx p r.actions).mp
          ⟨st2.1.actions, hact2⟩
        obtain ⟨fR, nR⟩ := (routeResult_ok_iff ctx p r.routes).mp
          ⟨st2.1.routes, hroute2⟩
        refine ⟨?_, ?_, ?_, ?_⟩
        · rw [freshKeys_cons]
          refine ⟨fP, nP, ?_⟩
          have := hrP
          rw [permResult_ok_eq hperm2, entryKeys_append] at this
          exact this
        · rw [freshKeys_cons]
          refine ⟨fA, nA, ?_⟩
          have := hrA
          rw [actResult_ok_eq hact2, entryKeys_append] at this
          exact this
        · rw [freshKeys_cons]
          refine ⟨fR, nR, ?_⟩
          have := hrR
          rw [routeResult_ok_eq hroute2, entryKeys_append] at this
          exact this
        · rw [authCount_cons]
          cases hp : p.auth with
          | none =>
            rw [authResult_ok_of_none _ _ hp] at ha2
            injection ha2 with h5
            rw [Prod.mk.injEq] at h5
            simp only [hp, Option.isSome_none, Bool.false_eq_true, if_false]
            rw [Nat.zero_add]
            have : authBudget st2.1.auth = authBudget r.auth := by
              rw [← h5.1]
            exact this ▸ hrAuth
          | some a =>
            cases hauth : r.auth with
            | some b =>
              rw [hauth, authResult_error p (by simp [hp]) (by simp)] at ha2
              exact Except.noConfusion ha2
            | none =>
              rw [hauth, authResult_ok_of_some as hp] at ha2
              injection ha2 with h5
              rw [Prod.mk.injEq] at h5
              have hb : authBudget st2.1.auth = 0 := by
                rw [← h5.1]
                rfl
              have : authCount rest = 0 := Nat.le_zero.mp (hb ▸ hrAuth)
              simp [hp, this, authBudget]
    · intro hcan
      obtain ⟨hP, hA, hR, hAuth⟩ := hcan
      rw [freshKeys_cons] at hP hA hR
      obtain ⟨fP, nP, FP⟩ := hP
      obtain ⟨fA, nA, FA⟩ := hA
      obtain ⟨fR, nR, FR⟩ := hR
      obtain ⟨pe, hpe⟩ := (permResult_ok_iff ctx p r.permissions).mpr ⟨fP, nP⟩
      obtain ⟨ac, hac⟩ := (actResult_ok_iff ctx p r.actions).mpr ⟨fA, nA⟩
      obtain ⟨ro, hro⟩ := (routeResult_ok_iff ctx p r.routes).mpr ⟨fR, nR⟩
      have hex : ∃ au, authResult p r.auth as = .ok au := by
        rw [authResult_ok_iff]
        rintro ⟨hp1, hp2⟩
        rw [authCount_cons, hp1] at hAuth
        simp only [if_true] at hAuth
        have : authBudget r.auth = 0 := by
          unfold authBudget
          rw [hp2]
          rfl
        rw [this] at hAuth
        omega
      obtain ⟨au, hau⟩ := hex
      have hstep : resolveStep ctx (r, as) p = .ok
          ({ integrations := (r, as).1.integrations ++ integList p
             auth := au.1
             permissions := pe
             roles := rolesResult p (r, as).1.roles
             actions := ac
             middleware := (r, as).1.middleware ++ middlewareList p
             routes := ro
             hooks := pushHooks (r, as).1.hooks p }, au.2) :=
        resolveStep_ok_intro hau hpe hac hro
      have hnew : CanRun
          { integrations := (r, as).1.integrations ++ integList p
            auth := au.1
            permissions := pe
            roles := rolesResult p (r, as).1.roles
            actions := ac
            middleware := (r, as).1.middleware ++ middlewareList p
            routes := ro
            hooks := pushHooks (r, as).1.hooks p } rest := by
        refine ⟨?_, ?_, ?_, ?_⟩
        · show FreshKeys (entryKeys pe) rest permEntries
          rw [permResult_ok_eq hpe, entryKeys_append]
          exact FP
        · show FreshKeys (entryKeys ac) rest actEntries
          rw [actResult_ok_eq hac, entryKeys_append]
          exact FA
        · show FreshKeys (entryKeys ro) rest routeEntries
          rw [routeResult_ok_eq hro, entryKeys_append]
          exact FR
        · show authCount rest ≤ authBudget au.1
          cases hp : p.auth with
          | none =>
            rw [authResult_ok_of_none _ _ hp] at hau
            injection hau with h5
            rw [authCount_cons, hp] at hAuth
            simp only [Option.isSome_none, Bool.false_eq_true, if_false,
              Nat.zero_add] at hAuth
            rw [← h5]
            exact hAuth
          | some a =>
            have hauth : r.auth = none := by
              cases hauth : r.auth with
              | none => rfl
              | some b =>
                rw [hauth, authResult_error p (by simp [hp]) (by simp)] at hau
                exact Except.noConfusion hau
            rw [hauth, authResult_ok_of_some as hp] at hau
            injection hau with h5
            rw [authCount_cons, hp] at hAuth
            rw [hauth] at hAuth
            simp only [Option.isSome_some, if_true] at hAuth
            have : authCount rest = 0 := by
              unfold authBudget at hAuth
              simp at hAuth
              omega
            rw [this, ← h5]
            exact Nat.zero_le _
      obtain ⟨st', hrun⟩ := (ih _ au.2).mpr hnew
      exact ⟨st', by rw [runPlugins_cons_ok hstep rest]; exact hrun⟩

/-! ### resolvePlugins glue -/

theorem resolvePlugins_error_iff (ps : List Plugin) (e : PluginConflictError) :
    resolvePlugins ps = .error e ↔
      runPlugins ps (emptyResolved, none) ps = .error e := by
  cases h : runPlugins ps (emptyResolved, none) ps with
  | error e1 => simp [resolvePlugins, h]
  | ok st => simp [resolvePlugins, h]

theorem resolvePlugins_ok_elim {ps : List Plugin} {r : ResolvedPlugins}
    (h : resolvePlugins ps = .ok r) :
    ∃ as, runPlugins ps (emptyResolved, none) ps = .ok (r, as) := by
  unfold resolvePlugins at h
  cases h2 : runPlugins ps (emptyResolved, none) ps with
  | error e =>
    simp only [h2] at h
    exact Except.noConfusion h
  | ok st =>
    obtain ⟨a, b⟩ := st
    simp only [h2] at h
    injection h with h5
    subst h5
    exact ⟨b, rfl⟩

theorem resolvePlugins_ok_intro {ps : List Plugin} {r : ResolvedPlugins}
    {as : Option String}
    (h : runPlugins ps (emptyResolved, none) ps = .ok (r, as)) :
    resolvePlugins ps = .ok r := by
  simp [resolvePlugins, h]

/-! ### Assembling the success condition from disjointness hypotheses -/

theorem mem_entryKeys_flatten (f : Plugin → List (String × Nat))
    (ps : List Plugin) (k : String) :
    k ∈ entryKeys ((ps.map f).flatten) ↔ ∃ q ∈ ps, k ∈ entryKeys (f q) := by
  induction ps with
  | nil => simp [entryKeys]
  | cons p rest ih =>
    rw [List.map_cons, List.flatten_cons, entryKeys_append]
    simp [ih, List.mem_append]

theorem entryKeys_flatten_nodup {f : Plugin → List (String × Nat)} :
    ∀ {ps : List Plugin}, (∀ p ∈ ps, (entryKeys (f p)).Nodup) →
      ps.Pairwise (fun a b => keysDisjoint (f a) (f b)) →
      (entryKeys ((ps.map f).flatten)).Nodup := by
  intro ps
  induction ps with
  | nil => simp [entryKeys]
  | cons p rest ih =>
    intro hwf hpw
    rw [List.pairwise_cons] at hpw
    rw [List.map_cons, List.flatten_cons, entryKeys_append, List.nodup_append]
    refine ⟨hwf p (List.mem_cons_self p rest),
      ih (fun q hq => hwf q (List.mem_cons_of_mem p hq)) hpw.2, ?_⟩
    intro k hk hk2
    obtain ⟨q, hq, hkq⟩ := (mem_entryKeys_flatten f rest k).mp hk2
    exact (hpw.1 q hq k hk) hkq

theorem authCount_eq_zero {ps : List Plugin}
    (h : ∀ q ∈ ps, q.auth = none) : authCount ps = 0 := by
  rw [authCount, List.countP_eq_zero]
  intro q hq
  simp [h q hq]

theorem authCount_le_one {ps : List Plugin} (h : AuthAtMostOne ps) :
    authCount ps ≤ 1 := by
  induction ps with
  | nil => exact Nat.zero_le 1
  | cons p rest ih =>
    rw [AuthAtMostOne, List.pairwise_cons] at h
    rw [authCount_cons]
    by_cases hp : p.auth.isSome = true
    · have h0 : authCount rest = 0 := by
        rw [authCount, List.countP_eq_zero]
        intro q hq
        by_contra hq2
        exact h.1 q hq ⟨hp, by simpa using hq2⟩
      simp [hp, h0]
    · have hp2 : p.auth.isSome = false := by simpa using hp
      rw [hp2]
      simp only [Bool.false_eq_true, if_false, Nat.zero_add]
      exact ih h.2

theorem canRun_of_disjoint {ps : List Plugin} (hwf : ∀ p ∈ ps, p.WF)
    (hkd : KeyDisjoint ps) (hac : authCount ps ≤ 1) :
    CanRun emptyResolved ps := by
  obtain ⟨h1, h2, h3⟩ := hkd
  refine ⟨⟨by simp [emptyResolved, entryKeys], ?_⟩,
    ⟨by simp [emptyResolved, entryKeys], ?_⟩,
    ⟨by simp [emptyResolved, entryKeys], ?_⟩, ?_⟩
  · exact entryKeys_flatten_nodup (fun p hp => ((hwf p hp).1)) h1
  · exact entryKeys_flatten_nodup (fun p hp => ((hwf p hp).2.2.1)) h2
  · exact entryKeys_flatten_nodup (fun p hp => ((hwf p hp).2.2.2)) h3
  · exact hac

/-! ### Roles characterisation -/

theorem foldl_rolesResult_lookup :
    ∀ (ps : List Plugin) (acc : List (String × List String)) (role : String),
      (recGet (ps.foldl (fun acc p => rolesResult p acc) acc) role).getD [] =
        mergeRolePerms ((recGet acc role).getD [])
          ((ps.map (rolePermsAt role)).flatten) := by
  intro ps
  induction ps with
  | nil => intro acc role; simp [mergeRolePerms]
  | cons p rest ih =>
    intro acc role
    rw [List.foldl_cons, ih, List.map_cons, List.flatten_cons]
    cases hp : p.roles with
    | none =>
      simp [rolesResult, hp, rolePermsAt, rolePermsOfEntries]
    | some entries =>
      simp only [rolesResult, hp]
      rw [recGet_mergeRoles, mergeRolePerms_append]
      congr 1
      simp [rolePermsAt, hp]

theorem resolvePlugins_roles_char {ps : List Plugin} {r : ResolvedPlugins}
    (h : resolvePlugins ps = .ok r) (role : String) :
    (recGet r.roles role).getD [] =
      dedupFS ((ps.map (rolePermsAt role)).flatten) := by
  obtain ⟨as, hrun⟩ := resolvePlugins_ok_elim h
  have c10 := (runPlugins_ok_fields hrun).2.2.2.2.2.2.2.2.2
  rw [show (r, as).1 = r from rfl] at c10
  rw [c10, foldl_rolesResult_lookup]
  rfl

/-! ### Roles never conflict: the erased-roles simulation -/

theorem stripRoles_permissions (p : Plugin) :
    (stripRoles p).permissions = p.permissions := rfl

theorem stripRoles_actions (p : Plugin) :
    (stripRoles p).actions = p.actions := rfl

theorem stripRoles_routes (p : Plugin) :
    (stripRoles p).routes = p.routes := rfl

theorem findOwner_stripRoles (ctx : List Plugin) (f : MergeField) (k n : String) :
    findOwner (ctx.map stripRoles) f k n = findOwner ctx f k n := by
  induction ctx with
  | nil => rfl
  | cons q rest ih =>
    have hfm : (stripRoles q).fieldMap f = q.fieldMap f := by cases f <;> rfl
    rw [List.map_cons]
    show (if (stripRoles q).name = n then "engine config" else _) = _
    rw [show (stripRoles q).name = q.name from rfl]
    by_cases hq : q.name = n
    · simp [findOwner, hq]
    · cases hf : q.fieldMap f with
      | none => simp [findOwner, hq, hfm, hf, ih]
      | some obj => by_cases hk : recHas obj k <;> simp [findOwner, hq, hfm, hf, hk, ih]

theorem resolveStep_stripRoles (ctx : List Plugin)
    (st : ResolvedPlugins × Option String) (p : Plugin) :
    resolveStep (ctx.map stripRoles) (eraseRolesR st.1, st.2) (stripRoles p) =
      match resolveStep ctx st p with
      | .error e => .error e
      | .ok st2 => .ok (eraseRolesR st2.1, st2.2) := by
  have hauth : authResult (stripRoles p) (eraseRolesR st.1, st.2).1.auth
      (eraseRolesR st.1, st.2).2 = authResult p st.1.auth st.2 := rfl
  have hperm : permResult (ctx.map stripRoles) (stripRoles p)
      (eraseRolesR st.1, st.2).1.permissions = permResult ctx p st.1.permissions := by
    cases hp : p.permissions with
    | none =>
      simp only [permResult, stripRoles_permissions, hp,
        show (eraseRolesR st.1).permissions = st.1.permissions from rfl]
    | some entries =>
      simp only [permResult, stripRoles_permissions, hp]
      exact insertEntries_congr_ctx "permission" .permissions (stripRoles p).name
        (fun k => findOwner_stripRoles ctx .permissions k p.name) entries
        st.1.permissions
  have hact : actResult (ctx.map stripRoles) (stripRoles p)
      (eraseRolesR st.1, st.2).1.actions = actResult ctx p st.1.actions := by
    cases hp : p.actions with
    | none =>
      simp only [actResult, stripRoles_actions, hp,
        show (eraseRolesR st.1).actions = st.1.actions from rfl]
    | some entries =>
      simp only [actResult, stripRoles_actions, hp]
      exact insertEntries_congr_ctx "action" .actions (stripRoles p).name
        (fun k => findOwner_stripRoles ctx .actions k p.name) entries st.1.actions
  have hroute : routeResult (ctx.map stripRoles) (stripRoles p)
      (eraseRolesR st.1, st.2).1.routes = routeResult ctx p st.1.routes := by
    cases hp : p.routes with
    | none =>
      simp only [routeResult, stripRoles_routes, hp,
        show (eraseRolesR st.1).routes = st.1.routes from rfl]
    | some entries =>
      simp only [routeResult, stripRoles_routes, hp]
      exact insertEntries_congr_ctx "route" .routes (stripRoles p).name
        (fun k => findOwner_stripRoles ctx .routes k p.name) entries st.1.routes
  rcases h1 : authResult p st.1.auth st.2 with e | au
  · rw [show resolveStep ctx st p = .error e by simp only [resolveStep, h1]]
    simp only [resolveStep, hauth, h1]
  · rcases h2 : permResult ctx p st.1.permissions with e2 | pe
    · rw [show resolveStep ctx st p = .error e2 by simp only [resolveStep, h1, h2]]
      simp only [resolveStep, hauth, h1, hperm, h2]
    · rcases h3 : actResult ctx p st.1.actions with e3 | ac
      · rw [show resolveStep ctx st p = .error e3 by
          simp only [resolveStep, h1, h2, h3]]
        simp only [resolveStep, hauth, h1, hperm, h2, hact, h3]
      · rcases h4 : routeResult ctx p st.1.routes with e4 | ro
        · rw [show resolveStep ctx st p = .error e4 by
            simp only [resolveStep, h1, h2, h3, h4]]
          simp only [resolveStep, hauth, h1, hperm, h2, hact, h3, hroute, h4]
        · rw [resolveStep_ok_intro h1 h2 h3 h4]
          rw [resolveStep_ok_intro (hauth.trans h1) (hperm.trans h2)
            (hact.trans h3) (hroute.trans h4)]
          rfl

theorem runPlugins_stripRoles (ctx : List Plugin) :
    ∀ (ps : List Plugin) (st : ResolvedPlugins × Option String),
      runPlugins (ctx.map stripRoles) (eraseRolesR st.1, st.2) (ps.map stripRoles) =
        match runPlugins ctx st ps with
        | .error e => .error e
        | .ok st2 => .ok (eraseRolesR st2.1, st2.2) := by
  intro ps
  induction ps with
  | nil => intro st; rfl
  | cons p rest ih =>
    intro st
    rcases h1 : resolveStep ctx st p with e | st2
    · rw [runPlugins_cons_error h1 rest, List.map_cons]
      have hstep : resolveStep (ctx.map stripRoles) (eraseRolesR st.1, st.2)
          (stripRoles p) = .error e := by
        rw [resolveStep_stripRoles, h1]
      rw [runPlugins_cons_error hstep (rest.map stripRoles)]
    · rw [runPlugins_cons_ok h1 rest, List.map_cons]
      have hstep : resolveStep (ctx.map stripRoles) (eraseRolesR st.1, st.2)
          (stripRoles p) = .ok (eraseRolesR st2.1, st2.2) := by
        rw [resolveStep_stripRoles, h1]
      rw [runPlugins_cons_ok hstep (rest.map stripRoles)]
      exact ih st2

theorem resolvePlugins_stripRoles (ps : List Plugin) :
    resolvePlugins (ps.map stripRoles) = (resolvePlugins ps).map eraseRolesR := by
  have base := runPlugins_stripRoles ps ps (emptyResolved, none)
  have he : eraseRolesR emptyResolved = emptyResolved := rfl
  rw [he] at base
  cases h : runPlugins ps (emptyResolved, none) ps with
  | error e =>
    rw [h] at base
    rw [(resolvePlugins_error_iff ps e).mpr h]
    simp [resolvePlugins, base, Except.map]
  | ok st =>
    rw [h] at base
    have hok : resolvePlugins ps = .ok st.1 := by simp [resolvePlugins, h]
    rw [hok]
    simp [resolvePlugins, base, Except.map]

/-! ### Error-field helpers -/

theorem authResult_error_spec {p : Plugin} {auth : Option AuthProvider}
    {as : Option String} {e : PluginConflictError}
    (h : authResult p auth as = .error e) :
    p.auth.isSome = true ∧ auth.isSome = true ∧
      e = ⟨"auth", "auth", assertDefined as, p.name⟩ := by
  cases hp : p.auth with
  | none =>
    rw [authResult_ok_of_none _ _ hp] at h
    exact Except.noConfusion h
  | some a =>
    cases ha : auth with
    | none =>
      rw [ha, authResult_ok_of_some as hp] at h
      exact Except.noConfusion h
    | some b =>
      rw [authResult_error p (by simp [hp]) (by simp [ha])] at h
      injection h with h5
      exact ⟨by simp [hp], by simp [ha], h5.symm⟩

theorem permResult_error_fields {ctx : List Plugin} {p : Plugin}
    {acc : List (String × Permission)} {e : PluginConflictError}
    (h : permResult ctx p acc = .error e) :
    e.kind = "permission" ∧ e.pluginB = p.name := by
  cases hp : p.permissions with
  | none =>
    simp only [permResult, hp] at h
    exact Except.noConfusion h
  | some entries =>
    simp only [permResult, hp] at h
    exact insertEntries_error_fields "permission" .permissions ctx p.name
      entries acc e h

theorem actResult_error_fields {ctx : List Plugin} {p : Plugin}
    {acc : List (String × ActionDefinition)} {e : PluginConflictError}
    (h : actResult ctx p acc = .error e) :
    e.kind = "action" ∧ e.pluginB = p.name := by
  cases hp : p.actions with
  | none =>
    simp only [actResult, hp] at h
    exact Except.noConfusion h
  | some entries =>
    simp only [actResult, hp] at h
    exact insertEntries_error_fields "action" .actions ctx p.name entries acc e h

theorem routeResult_error_fields {ctx : List Plugin} {p : Plugin}
    {acc : List (String × RouteHandler)} {e : PluginConflictError}
    (h : routeResult ctx p acc = .error e) :
    e.kind = "route" ∧ e.pluginB = p.name := by
  cases hp : p.routes with
  | none =>
    simp only [routeResult, hp] at h
    exact Except.noConfusion h
  | some entries =>
    simp only [routeResult, hp] at h
    exact insertEntries_error_fields "route" .routes ctx p.name entries acc e h

theorem authCount_append (l1 l2 : List Plugin) :
    authCount (l1 ++ l2) = authCount l1 + authCount l2 := by
  simp [authCount, List.countP_append]

/-! ### Claim theorems -/

/-- C1: when no auth provider, permission slug, action name, or route key is
contributed by more than one descriptor (and each descriptor is a well-formed
JS record), `resolvePlugins` succeeds, and the resolved `integrations` and
`middleware` are the concatenations of the descriptors' sequences in input
order, preserving intra-descriptor order. -/
theorem resolve_disjoint_succeeds (ps : List Plugin)
    (hwf : ∀ p ∈ ps, p.WF) (hkd : KeyDisjoint ps) (hau : AuthAtMostOne ps) :
    ∃ r, resolvePlugins ps = .ok r ∧
      r.integrations = (ps.map integList).flatten ∧
      r.middleware = (ps.map middlewareList).flatten := by
  obtain ⟨st', hrun⟩ := (runPlugins_ok_iff ps ps emptyResolved none).mpr
    (canRun_of_disjoint hwf hkd (authCount_le_one hau))
  obtain ⟨c1, c2, _⟩ := runPlugins_ok_fields hrun
  refine ⟨st'.1, resolvePlugins_ok_intro hrun, ?_, ?_⟩
  · rw [c1]
    simp [emptyResolved]
  · rw [c2]
    simp [emptyResolved]

/-- Witness for C1 at a concrete two-descriptor input. -/
theorem resolve_disjoint_succeeds_witness :
    (∀ p ∈ [exA, exB], p.WF) ∧ KeyDisjoint [exA, exB] ∧
      AuthAtMostOne [exA, exB] ∧
      ∃ r, resolvePlugins [exA, exB] = .ok r ∧
        r.integrations = ([exA, exB].map integList).flatten ∧
        r.middleware = ([exA, exB].map middlewareList).flatten :=
  ⟨by decide, by decide, by decide,
    resolve_disjoint_succeeds [exA, exB] (by decide) (by decide) (by decide)⟩

/-- C3: for every role name, the resolved entry is the order-preserving,
duplicate-suppressing union (first-seen order) of the permission-slug lists
contributed to that role by the descriptors in input order; and erasing every
descriptor's roles changes nothing but the resolved `roles` mapping — in
particular role merging never raises a conflict. -/
theorem roles_union_merge (ps : List Plugin) (r : ResolvedPlugins)
    (h : resolvePlugins ps = .ok r) :
    (∀ role, (recGet r.roles role).getD [] =
      dedupFS ((ps.map (rolePermsAt role)).flatten)) ∧
      resolvePlugins (ps.map stripRoles) = (resolvePlugins ps).map eraseRolesR :=
  ⟨fun role => resolvePlugins_roles_char h role, resolvePlugins_stripRoles ps⟩

/-- Witness for C3: `roles.editor = ["x","y"]` then `["y","z"]` resolves to
the union `["x","y","z"]`. -/
theorem roles_union_merge_witness :
    (recGet exR.roles "editor").getD [] =
      dedupFS (([exA, exB].map (rolePermsAt "editor")).flatten) ∧
      (recGet exR.roles "editor").getD [] = ["x", "y", "z"] :=
  ⟨(roles_union_merge [exA, exB] exR (by rfl)).1 "editor", by rfl⟩

/-- C10: with a single descriptor, a permission slug listed twice for one
role is recorded once, at its first occurrence: the resolved role list is the
first-seen de-duplication of the descriptor's own list. -/
theorem role_dedup_within (p : Plugin) (r : ResolvedPlugins)
    (h : resolvePlugins [p] = .ok r) (role : String) :
    (recGet r.roles role).getD [] = dedupFS (rolePermsAt role p) := by
  rw [resolvePlugins_roles_char h role]
  simp

/-- Witness for C10: `roles.editor = ["x","x"]` resolves to `["x"]`. -/
theorem role_dedup_within_witness :
    (recGet exER.roles "editor").getD [] = dedupFS (rolePermsAt "editor" exE) ∧
      (recGet exER.roles "editor").getD [] = ["x"] :=
  ⟨role_dedup_within exE exER (by rfl) "editor", by rfl⟩

/-! ### First-owner lemmas -/

theorem first_mem_split {α : Type} {P : α → Prop} {l : List α}
    (h : ∃ q ∈ l, P q) :
    ∃ pre q suf, l = pre ++ q :: suf ∧ P q ∧ ∀ x ∈ pre, ¬P x := by
  induction l with
  | nil => simp at h
  | cons a rest ih =>
    by_cases ha : P a
    · exact ⟨[], a, rest, rfl, ha, by simp⟩
    · obtain ⟨q, hq, hPq⟩ := h
      rcases List.mem_cons.mp hq with hq1 | hq2
      · exact absurd (hq1 ▸ hPq) ha
      · obtain ⟨pre, q0, suf, hl, hP0, hpre⟩ := ih ⟨q, hq2, hPq⟩
        refine ⟨a :: pre, q0, suf, by rw [hl]; rfl, hP0, ?_⟩
        intro x hx
        rcases List.mem_cons.mp hx with hx1 | hx2
        · exact hx1 ▸ ha
        · exact hpre x hx2

theorem insertEntries_error_spec (kind : String) (f : MergeField)
    (ctx : List Plugin) (n : String) :
    ∀ (entries acc : List (String × Nat)) (e : PluginConflictError),
      insertEntries kind f ctx n acc entries = .error e →
        ∃ pre1 v suf1, entries = pre1 ++ (e.key, v) :: suf1 ∧
          recHas (acc ++ pre1) e.key = true ∧
          e = ⟨kind, e.key, findOwner ctx f e.key n, n⟩ := by
  intro entries
  induction entries with
  | nil =>
    intro acc e h
    simp [insertEntries] at h
  | cons ent rest ih =>
    obtain ⟨k, v⟩ := ent
    intro acc e h
    by_cases hk : recHas acc k
    · simp only [insertEntries, hk, if_true] at h
      injection h with h5
      subst h5
      exact ⟨[], v, rest, rfl, by simpa using hk, rfl⟩
    · simp only [insertEntries, hk, Bool.false_eq_true, if_false] at h
      obtain ⟨pre1, v1, suf1, hsplit, hhas, hee⟩ := ih _ _ h
      refine ⟨(k, v) :: pre1, v1, suf1, by simp [hsplit], ?_, hee⟩
      have hl2 : acc ++ (k, v) :: pre1 = (acc ++ [(k, v)]) ++ pre1 := by simp
      rw [hl2]
      exact hhas

theorem findOwner_first_owner :
    ∀ (pre2 : List Plugin) (q : Plugin) (suf2 rest : List Plugin) (p : Plugin)
      (f : MergeField) (key : String),
      key ∈ entryKeys ((q.fieldMap f).getD []) →
      (∀ x ∈ pre2, key ∉ entryKeys ((x.fieldMap f).getD [])) →
      (∀ x ∈ pre2 ++ q :: suf2, x.name ≠ p.name) →
      findOwner ((pre2 ++ q :: suf2) ++ p :: rest) f key p.name = q.name := by
  intro pre2
  induction pre2 with
  | nil =>
    intro q suf2 rest p f key hq hpre hnames
    have hqn : q.name ≠ p.name := hnames q (List.mem_cons_self q _)
    cases hf : q.fieldMap f with
    | none =>
      rw [hf] at hq
      simp [entryKeys] at hq
    | some obj =>
      rw [hf] at hq
      have hobj : recHas obj key = true := (recHas_iff obj key).mpr hq
      simp [findOwner, hqn, hf, hobj]
  | cons a pre2x ih =>
    intro q suf2 rest p f key hq hpre hnames
    have han : a.name ≠ p.name := hnames a (List.mem_cons_self a _)
    have hak : key ∉ entryKeys ((a.fieldMap f).getD []) :=
      hpre a (List.mem_cons_self a _)
    have ihx := ih q suf2 rest p f key hq
      (fun x hx => hpre x (List.mem_cons_of_mem a hx))
      (fun x hx => hnames x (List.mem_cons_of_mem a hx))
    cases hf : a.fieldMap f with
    | none =>
      simp [findOwner, han, hf]
      simpa using ihx
    | some obj =>
      have hobj : recHas obj key = false := by
        rw [recHas_false_iff]
        rw [hf] at hak
        simpa using hak
      simp [findOwner, han, hf, hobj]
      simpa using ihx

theorem runPlugins_authSource_frozen {ctx : List Plugin}
    {st st' : ResolvedPlugins × Option String} {l : List Plugin}
    (h : runPlugins ctx st l = .ok st') (ha : st.1.auth.isSome = true) :
    st'.2 = st.2 ∧ st'.1.auth.isSome = true := by
  induction l generalizing st with
  | nil =>
    rw [runPlugins_nil] at h
    injection h with h5
    subst h5
    exact ⟨rfl, ha⟩
  | cons p rest ih =>
    rcases h1 : resolveStep ctx st p with e | st2
    · rw [runPlugins_cons_error h1 rest] at h
      exact Except.noConfusion h
    · rw [runPlugins_cons_ok h1 rest] at h
      obtain ⟨haeq, _⟩ := resolveStep_ok_spec h1
      cases hp : p.auth with
      | some a =>
        rw [authResult_error p (by simp [hp]) ha] at haeq
        exact Except.noConfusion haeq
      | none =>
        rw [authResult_ok_of_none _ _ hp] at haeq
        injection haeq with h5
        rw [Prod.mk.injEq] at h5
        obtain ⟨e1, e2⟩ := h5
        obtain ⟨f1, f2⟩ := ih h (by rw [← e1]; exact ha)
        exact ⟨f1.trans e2.symm, f2⟩

theorem runPlugins_auth_first {ctx : List Plugin} {r : ResolvedPlugins}
    {st' : ResolvedPlugins × Option String} {l : List Plugin}
    (h : runPlugins ctx (r, none) l = .ok st') (hr : r.auth = none) :
    (st'.2 = none ∧ st'.1.auth = none) ∨
      (∃ pre q suf, l = pre ++ q :: suf ∧ q.auth.isSome = true ∧
        (∀ x ∈ pre, x.auth = none) ∧ st'.2 = some q.name) := by
  induction l generalizing r with
  | nil =>
    rw [runPlugins_nil] at h
    injection h with h5
    subst h5
    exact Or.inl ⟨rfl, hr⟩
  | cons p rest ih =>
    rcases h1 : resolveStep ctx (r, none) p with e | st2
    · rw [runPlugins_cons_error h1 rest] at h
      exact Except.noConfusion h
    · rw [runPlugins_cons_ok h1 rest] at h
      obtain ⟨haeq, _⟩ := resolveStep_ok_spec h1
      cases hp : p.auth with
      | none =>
        rw [authResult_ok_of_none _ _ hp] at haeq
        injection haeq with h5
        rw [Prod.mk.injEq] at h5
        obtain ⟨e1, e2⟩ := h5
        have e2b : st2.2 = none := by rw [← e2]
        have hst2 : st2 = (st2.1, (none : Option String)) := by
          rw [← e2b]
        rw [hst2] at h
        rcases ih h (by rw [← e1]; exact hr) with hleft | ⟨pre, q, suf, hl, hq, hpre, hsrc⟩
        · exact Or.inl hleft
        · refine Or.inr ⟨p :: pre, q, suf, by simp [hl], hq, ?_, hsrc⟩
          intro x hx
          rcases List.mem_cons.mp hx with hx1 | hx2
          · rw [hx1]
            exact hp
          · exact hpre x hx2
      | some a =>
        have haeq2 : authResult p r.auth none = .ok (st2.1.auth, st2.2) := haeq
        rw [hr, authResult_ok_of_some none hp] at haeq2
        injection haeq2 with h5
        rw [Prod.mk.injEq] at h5
        obtain ⟨e1, e2⟩ := h5
        obtain ⟨f1, f2⟩ := runPlugins_authSource_frozen h (by rw [← e1]; rfl)
        exact Or.inr ⟨[], p, rest, rfl, by simp [hp], by simp, by rw [f1, ← e2]⟩

theorem first_owner_of_insert_error (kind : String) (f : MergeField)
    (pre suf : List Plugin) (p : Plugin)
    (g : Plugin → List (String × Nat))
    (hg : ∀ x, (x.fieldMap f).getD [] = g x)
    (entries : List (String × Nat)) (e : PluginConflictError)
    (hnd : (entryKeys entries).Nodup)
    (hnamespre : ∀ x ∈ pre, x.name ≠ p.name)
    (herr : insertEntries kind f (pre ++ p :: suf) p.name
      ((pre.map g).flatten) entries = .error e) :
    e.kind = kind ∧ e.pluginB = p.name ∧
      FirstKeyOwner (pre ++ p :: suf) f e.key e.pluginA := by
  obtain ⟨pre1, v, suf1, hsplit, hhas, hee⟩ :=
    insertEntries_error_spec kind f (pre ++ p :: suf) p.name entries
      ((pre.map g).flatten) e herr
  have hkey_not : e.key ∉ entryKeys pre1 := by
    rw [hsplit, entryKeys_append] at hnd
    obtain ⟨_, _, hdisj⟩ := List.nodup_append.mp hnd
    intro hcon
    exact hdisj hcon (by simp [entryKeys])
  have hkacc : e.key ∈ entryKeys ((pre.map g).flatten) := by
    have hmem2 := (recHas_iff _ _).mp hhas
    rw [entryKeys_append] at hmem2
    rcases List.mem_append.mp hmem2 with hmem2 | hmem2
    · exact hmem2
    · exact absurd hmem2 hkey_not
  obtain ⟨q1, hq1, hq1k⟩ := (mem_entryKeys_flatten g pre e.key).mp hkacc
  obtain ⟨pre2, q, suf2, hl, hqk, hpre2⟩ :=
    first_mem_split (⟨q1, hq1, hq1k⟩ : ∃ x ∈ pre, e.key ∈ entryKeys (g x))
  have hnames2 : ∀ x ∈ pre2 ++ q :: suf2, x.name ≠ p.name := by
    rw [← hl]
    exact hnamespre
  have hfo : findOwner ((pre2 ++ q :: suf2) ++ p :: suf) f e.key p.name = q.name :=
    findOwner_first_owner pre2 q suf2 suf p f e.key
      (by rw [hg q]; exact hqk)
      (fun x hx => by rw [hg x]; exact hpre2 x hx)
      hnames2
  refine ⟨by rw [hee], by rw [hee], ⟨pre2, q, suf2 ++ p :: suf, ?_, ?_, ?_, ?_⟩⟩
  · rw [hl]
    simp
  · rw [hg q]
    exact hqk
  · intro x hx
    rw [hg x]
    exact hpre2 x hx
  · rw [hee]
    show findOwner (pre ++ p :: suf) f e.key p.name = q.name
    rw [hl]
    exact hfo

theorem message_flat (e : PluginConflictError) :
    e.message = "Plugin conflict: " ++ e.kind ++ " \"" ++ e.key ++
      "\" is defined by both \"" ++ e.pluginA ++ "\" and \"" ++ e.pluginB ++
      "\". Each " ++ e.kind ++ " must be provided by exactly one plugin." := by
  rw [show ("\". Each " : String) = "\". " ++ "Each " from rfl]
  simp only [PluginConflictError.message, String.append_assoc]

/-- C5 counterexample: with two descriptors both named `X` contributing slug
`p`, the ownership trace breaks at the first name match and the raised
conflict reports `ownerA = "engine config"`, which is no registrant's name
(every registrant is named `X`). -/
theorem conflict_ownerA_cx :
    resolvePlugins [dupX1, dupX2] =
      .error ⟨"permission", "p", "engine config", "X"⟩ ∧
      dupX1.name = "X" ∧ dupX2.name = "X" ∧
      ("engine config" : String) ≠ "X" :=
  ⟨by rfl, rfl, rfl, by decide⟩

/-- C5 (amended): every conflict `resolvePlugins` raises carries a kind
among `auth`, `permission`, `action`, `route`, an `ownerB` naming the
descriptor that triggered it, and renders exactly the specified message
text; and — provided descriptor names are distinct and each descriptor is a
well-formed JS record — `ownerA` is the name of the first registrant: for an
`auth` conflict the first descriptor in input order that supplied `auth`,
and otherwise the first descriptor in input order whose contribution mapping
of the conflict's kind contains the colliding key. -/
theorem conflict_shape (ps : List Plugin) (e : PluginConflictError)
    (h : resolvePlugins ps = .error e)
    (hwf : ∀ p ∈ ps, p.WF) (hnames : (ps.map Plugin.name).Nodup) :
    (e.kind = "auth" ∨ e.kind = "permission" ∨ e.kind = "action" ∨
      e.kind = "route") ∧
      (∃ p, p ∈ ps ∧ e.pluginB = p.name) ∧
      e.message = "Plugin conflict: " ++ e.kind ++ " \"" ++ e.key ++
        "\" is defined by both \"" ++ e.pluginA ++ "\" and \"" ++ e.pluginB ++
        "\". Each " ++ e.kind ++ " must be provided by exactly one plugin." ∧
      (e.kind = "auth" → e.key = "auth" ∧ FirstAuthOwner ps e.pluginA) ∧
      (e.kind = "permission" →
        FirstKeyOwner ps MergeField.permissions e.key e.pluginA) ∧
      (e.kind = "action" →
        FirstKeyOwner ps MergeField.actions e.key e.pluginA) ∧
      (e.kind = "route" →
        FirstKeyOwner ps MergeField.routes e.key e.pluginA) := by
  rw [resolvePlugins_error_iff] at h
  obtain ⟨pre, p, suf, st1, hps, hpre, hstep⟩ := runPlugins_error_split h
  subst hps
  have hmem : p ∈ pre ++ p :: suf :=
    List.mem_append.mpr (Or.inr (List.mem_cons_self p suf))
  have hnamespre : ∀ x ∈ pre, x.name ≠ p.name := by
    rw [List.map_append, List.map_cons] at hnames
    obtain ⟨_, _, hdisj⟩ := List.nodup_append.mp hnames
    intro x hx he2
    exact hdisj (List.mem_map_of_mem Plugin.name hx)
      (by rw [he2]; exact List.mem_cons_self _ _)
  rcases resolveStep_error_spec hstep with
    he | ⟨au, hau, he2 | ⟨pe, hpe, he3 | ⟨ac, hac2, he4⟩⟩⟩
  · -- auth conflict
    obtain ⟨hpa, hsa, hee⟩ := authResult_error_spec he
    have hkind : e.kind = "auth" := by rw [hee]
    rcases runPlugins_auth_first hpre rfl with ⟨g1, g2⟩ |
      ⟨pre2, q, suf2, hl, hq, hpre2, hsrc⟩
    · rw [g2] at hsa
      exact absurd hsa (by decide)
    · have hA : e.pluginA = q.name := by
        rw [hee, hsrc]
        rfl
      refine ⟨Or.inl hkind, ⟨p, hmem, by rw [hee]⟩, message_flat e,
        ?_, ?_, ?_, ?_⟩
      · intro _
        refine ⟨by rw [hee], ⟨pre2, q, suf2 ++ p :: suf, ?_, hq, hpre2, hA⟩⟩
        rw [hl]
        simp
      · intro hk
        rw [hkind] at hk
        exact absurd hk (by decide)
      · intro hk
        rw [hkind] at hk
        exact absurd hk (by decide)
      · intro hk
        rw [hkind] at hk
        exact absurd hk (by decide)
  · -- permission conflict
    cases hp : p.permissions with
    | none =>
      simp only [permResult, hp] at he2
      exact Except.noConfusion he2
    | some entries =>
      simp only [permResult, hp] at he2
      have hacc : st1.1.permissions = (pre.map permEntries).flatten := by
        simpa [emptyResolved] using (runPlugins_ok_fields hpre).2.2.1
      have hnd : (entryKeys entries).Nodup := by
        have := (hwf p hmem).1
        simpa [permEntries, hp] using this
      rw [hacc] at he2
      obtain ⟨hkind, hownerB, hfirst⟩ := first_owner_of_insert_error
        "permission" .permissions pre suf p permEntries (fun x => rfl)
        entries e hnd hnamespre he2
      refine ⟨Or.inr (Or.inl hkind), ⟨p, hmem, hownerB⟩, message_flat e,
        ?_, fun _ => hfirst, ?_, ?_⟩
      · intro hk
        rw [hkind] at hk
        exact absurd hk (by decide)
      · intro hk
        rw [hkind] at hk
        exact absurd hk (by decide)
      · intro hk
        rw [hkind] at hk
        exact absurd hk (by decide)
  · -- action conflict
    cases hp : p.actions with
    | none =>
      simp only [actResult, hp] at he3
      exact Except.noConfusion he3
    | some entries =>
      simp only [actResult, hp] at he3
      have hacc : st1.1.actions = (pre.map actEntries).flatten := by
        simpa [emptyResolved] using (runPlugins_ok_fields hpre).2.2.2.1
      have hnd : (entryKeys entries).Nodup := by
        have := (hwf p hmem).2.2.1
        simpa [actEntries, hp] using this
      rw [hacc] at he3
      obtain ⟨hkind, hownerB, hfirst⟩ := first_owner_of_insert_error
        "action" .actions pre suf p actEntries (fun x => rfl)
        entries e hnd hnamespre he3
      refine ⟨Or.inr (Or.inr (Or.inl hkind)), ⟨p, hmem, hownerB⟩,
        message_flat e, ?_, ?_, fun _ => hfirst, ?_⟩
      · intro hk
        rw [hkind] at hk
        exact absurd hk (by decide)
      · intro hk
        rw [hkind] at hk
        exact absurd hk (by decide)
      · intro hk
        rw [hkind] at hk
        exact absurd hk (by decide)
  · -- route conflict
    cases hp : p.routes with
    | none =>
      simp only [routeResult, hp] at he4
      exact Except.noConfusion he4
    | some entries =>
      simp only [routeResult, hp] at he4
      have hacc : st1.1.routes = (pre.map routeEntries).flatten := by
        simpa [emptyResolved] using (runPlugins_ok_fields hpre).2.2.2.2.1
      have hnd : (entryKeys entries).Nodup := by
        have := (hwf p hmem).2.2.2
        simpa [routeEntries, hp] using this
      rw [hacc] at he4
      obtain ⟨hkind, hownerB, hfirst⟩ := first_owner_of_insert_error
        "route" .routes pre suf p routeEntries (fun x => rfl)
        entries e hnd hnamespre he4
      refine ⟨Or.inr (Or.inr (Or.inr hkind)), ⟨p, hmem, hownerB⟩,
        message_flat e, ?_, ?_, ?_, fun _ => hfirst⟩
      · intro hk
        rw [hkind] at hk
        exact absurd hk (by decide)
      · intro hk
        rw [hkind] at hk
        exact absurd hk (by decide)
      · intro hk
        rw [hkind] at hk
        exact absurd hk (by decide)

/-- Witness for the amended C5: at `[cxA, cxB, cxC]` (distinct names,
well-formed records) the raised permission conflict names `A`, the first
registrant of slug `p`, as `ownerA`. -/
theorem conflict_shape_witness :
    PluginConflictError.kind ⟨"permission", "p", "A", "B"⟩ = "permission" ∧
      FirstKeyOwner [cxA, cxB, cxC] MergeField.permissions "p" "A" := by
  have h := conflict_shape [cxA, cxB, cxC] ⟨"permission", "p", "A", "B"⟩
    (by rfl) (by decide) (by decide)
  exact ⟨rfl, h.2.2.2.2.1 rfl⟩

/-- C9: whenever the auth conflict is raised, the reported first owner is the
name of a descriptor of the input that actually supplied `auth` — the
`authSource!` assertion never observes an undefined value. -/
theorem auth_owner_defined (ps : List Plugin) (e : PluginConflictError)
    (h : resolvePlugins ps = .error e) (hk : e.kind = "auth") :
    ∃ p, p ∈ ps ∧ p.auth.isSome = true ∧ e.pluginA = p.name := by
  rw [resolvePlugins_error_iff] at h
  obtain ⟨pre, p, suf, st1, hps, hpre, hstep⟩ := runPlugins_error_split h
  rcases resolveStep_error_spec hstep with
    he | ⟨au, _, he2 | ⟨pe, _, he3 | ⟨ac, _, he4⟩⟩⟩
  · obtain ⟨hpa, hsa, hee⟩ := authResult_error_spec he
    obtain ⟨hinv, hor⟩ := runPlugins_auth_track hpre rfl
    rcases hor with hor | ⟨q, hq, hqa, hqn⟩
    · rw [hor] at hinv
      rw [hsa] at hinv
      exact absurd hinv.symm (by decide)
    · refine ⟨q, ?_, hqa, ?_⟩
      · rw [hps]
        exact List.mem_append.mpr (Or.inl hq)
      · rw [hee, hqn]
        rfl
  · obtain ⟨hk2, _⟩ := permResult_error_fields he2
    rw [hk] at hk2
    exact absurd hk2 (by decide)
  · obtain ⟨hk2, _⟩ := actResult_error_fields he3
    rw [hk] at hk2
    exact absurd hk2 (by decide)
  · obtain ⟨hk2, _⟩ := routeResult_error_fields he4
    rw [hk] at hk2
    exact absurd hk2 (by decide)

/-- Witness for C9 at a concrete double-auth input. -/
theorem auth_owner_defined_witness :
    ∃ p, p ∈ [exA, cxC] ∧ p.auth.isSome = true ∧
      PluginConflictError.pluginA ⟨"auth", "auth", "A", "C"⟩ = p.name :=
  auth_owner_defined [exA, cxC] ⟨"auth", "auth", "A", "C"⟩ (by rfl) rfl

/-- C8: a conflict is raised at the first violation in descriptor order: the
input splits as `pre ++ p :: suf` where `pre` alone resolves successfully and
the error depends only on `pre ++ [p]` — every descriptor list with the same
prefix up to the violating descriptor fails with the identical error, so
nothing after the violation is processed and no partial configuration is
returned. -/
theorem fail_fast (ps : List Plugin) (e : PluginConflictError)
    (h : resolvePlugins ps = .error e) :
    ∃ pre p suf, ps = pre ++ p :: suf ∧
      (∃ r0, resolvePlugins pre = .ok r0) ∧
      ∀ suf2, resolvePlugins (pre ++ p :: suf2) = .error e := by
  rw [resolvePlugins_error_iff] at h
  obtain ⟨pre, p, suf, st1, hps, hpre, hstep⟩ := runPlugins_error_split h
  subst hps
  refine ⟨pre, p, suf, rfl,
    ⟨st1.1, resolvePlugins_ok_intro (runPlugins_ok_ctx hpre)⟩, ?_⟩
  intro suf2
  rw [resolvePlugins_error_iff]
  have hpre2 : runPlugins (pre ++ p :: suf2) (emptyResolved, none) pre = .ok st1 :=
    runPlugins_ok_ctx hpre
  have hcongr : resolveStep (pre ++ p :: suf) st1 p =
      resolveStep (pre ++ p :: suf2) st1 p :=
    resolveStep_congr_ctx st1 (fun f k => findOwner_stable pre p suf suf2 f k)
  have hstep2 : resolveStep (pre ++ p :: suf2) st1 p = .error e := by
    rw [← hcongr]
    exact hstep
  rw [runPlugins_append, hpre2]
  exact runPlugins_cons_error hstep2 suf2

/-- Witness for C8 at a concrete conflicting input. -/
theorem fail_fast_witness :
    ∃ pre p suf, ([cxA, cxB, cxC] : List Plugin) = pre ++ p :: suf ∧
      (∃ r0, resolvePlugins pre = .ok r0) ∧
      ∀ suf2, resolvePlugins (pre ++ p :: suf2) =
        .error ⟨"permission", "p", "A", "B"⟩ :=
  fail_fast [cxA, cxB, cxC] ⟨"permission", "p", "A", "B"⟩ (by rfl)

/-- C2 counterexample: two descriptors (`cxA`, `cxC`) both supply `auth`, yet
resolution fails earlier with a `permission` conflict raised by `cxB`, so the
claimed `auth` conflict is not what is raised. -/
theorem auth_conflict_preempted :
    cxA.auth.isSome = true ∧ cxC.auth.isSome = true ∧
      resolvePlugins [cxA, cxB, cxC] = .error ⟨"permission", "p", "A", "B"⟩ ∧
      PluginConflictError.kind ⟨"permission", "p", "A", "B"⟩ ≠ "auth" :=
  ⟨rfl, rfl, by rfl, by decide⟩

/-- C2 (amended): when no permission/action/route conflict precedes the
second auth supplier, a descriptor list whose auth suppliers are exactly `a`
(first) and `b` (second, in input order) fails with kind `auth`, key `auth`,
`ownerA` the name of `a` and `ownerB` the name of `b`. -/
theorem auth_conflict_owners (pre mid suf : List Plugin) (a b : Plugin)
    (hwf : ∀ p ∈ pre ++ a :: mid, p.WF)
    (hkd : KeyDisjoint (pre ++ a :: mid))
    (hpre : ∀ q ∈ pre, q.auth = none) (hasome : a.auth.isSome = true)
    (hmid : ∀ q ∈ mid, q.auth = none) (hbsome : b.auth.isSome = true) :
    resolvePlugins (pre ++ a :: mid ++ b :: suf) =
      .error ⟨"auth", "auth", a.name, b.name⟩ := by
  set L := pre ++ a :: mid ++ b :: suf with hL
  have hac : authCount (pre ++ a :: mid) ≤ 1 := by
    rw [authCount_append, authCount_eq_zero hpre, authCount_cons,
      authCount_eq_zero hmid]
    simp [hasome]
  obtain ⟨stP, hrunP⟩ :=
    (runPlugins_ok_iff L (pre ++ a :: mid) emptyResolved none).mpr
      (canRun_of_disjoint hwf hkd hac)
  rw [runPlugins_append] at hrunP
  rcases h0 : runPlugins L (emptyResolved, none) pre with e0 | st0
  · simp only [h0] at hrunP
    exact Except.noConfusion hrunP
  · simp only [h0] at hrunP
    obtain ⟨g0a, g0s⟩ := runPlugins_auth_none hpre h0
    have g0a2 : st0.1.auth = none := g0a
    have g0s2 : st0.2 = none := g0s
    rcases h1 : resolveStep L st0 a with e1 | st1
    · rw [runPlugins_cons_error h1 mid] at hrunP
      exact Except.noConfusion hrunP
    · rw [runPlugins_cons_ok h1 mid] at hrunP
      obtain ⟨haeq, _, _, _, _, _, _, _⟩ := resolveStep_ok_spec h1
      obtain ⟨x, hx⟩ := Option.isSome_iff_exists.mp hasome
      rw [g0a2, g0s2, authResult_ok_of_some none hx] at haeq
      injection haeq with h5
      rw [Prod.mk.injEq] at h5
      obtain ⟨ea, es⟩ := h5
      obtain ⟨gma, gms⟩ := runPlugins_auth_none hmid hrunP
      have hstepb : resolveStep L stP b =
          .error ⟨"auth", "auth", assertDefined stP.2, b.name⟩ :=
        resolveStep_error_auth hbsome (by rw [gma, ← ea]; rfl)
      have hname : assertDefined stP.2 = a.name := by
        rw [gms, ← es]
        rfl
      have hstepb2 : resolveStep L stP b =
          .error ⟨"auth", "auth", a.name, b.name⟩ := by
        rw [← hname]
        exact hstepb
      have hrunP2 : runPlugins L (emptyResolved, none) (pre ++ a :: mid) =
          .ok stP := by
        rw [runPlugins_append]
        simp only [h0]
        rw [runPlugins_cons_ok h1 mid]
        exact hrunP
      have hfinal : runPlugins L (emptyResolved, none)
          ((pre ++ a :: mid) ++ b :: suf) =
          .error ⟨"auth", "auth", a.name, b.name⟩ := by
        rw [runPlugins_append, hrunP2]
        exact runPlugins_cons_error hstepb2 suf
      have hle : (pre ++ a :: mid) ++ b :: suf = L := by
        simp [hL]
      rw [hle] at hfinal
      rw [resolvePlugins_error_iff]
      exact hfinal

/-- Witness for the amended C2 at a concrete two-auth input. -/
theorem auth_conflict_owners_witness :
    resolvePlugins ([] ++ exA :: [] ++ cxC :: []) =
      .error ⟨"auth", "auth", exA.name, cxC.name⟩ :=
  auth_conflict_owners [] [] [] exA cxC (by decide) (by decide)
    (fun q hq => absurd hq (List.not_mem_nil q)) rfl
    (fun q hq => absurd hq (List.not_mem_nil q)) rfl

/-- C4 counterexample: when no earlier descriptor owns the key, `findOwner`
returns `"engine config"`, not the claimed sentinel `"host configuration"`. -/
theorem findOwner_sentinel_cx :
    findOwner [] MergeField.permissions "p" "cur" = "engine config" ∧
      findOwner [] MergeField.permissions "p" "cur" ≠ "host configuration" :=
  ⟨rfl, by decide⟩

theorem findOwnerSpec_cons (p : Plugin) (rest : List Plugin)
    (field : MergeField) (key currentName : String) :
    findOwnerSpec (p :: rest) field key currentName =
      if p.name = currentName then "engine config"
      else if key ∈ entryKeys ((p.fieldMap field).getD []) then p.name
      else findOwnerSpec rest field key currentName := by
  unfold findOwnerSpec
  by_cases hn : p.name = currentName
  · simp [List.takeWhile_cons, hn]
  · by_cases hk : key ∈ entryKeys ((p.fieldMap field).getD []) <;>
      simp [List.takeWhile_cons, hn, hk, List.find?_cons]

/-- C4 (amended): the Ownership Tracer scans descriptors in original order,
stops at (not including) the first descriptor whose name matches the current
one, returns the name of the first scanned descriptor whose contribution
mapping contains the key, and falls back to the sentinel `"engine config"`. -/
theorem findOwner_eq_spec (plugins : List Plugin) (field : MergeField)
    (key currentName : String) :
    findOwner plugins field key currentName =
      findOwnerSpec plugins field key currentName := by
  induction plugins with
  | nil => rfl
  | cons p rest ih =>
    rw [findOwnerSpec_cons]
    by_cases hn : p.name = currentName
    · simp [findOwner, hn]
    · cases hf : p.fieldMap field with
      | none =>
        simp [findOwner, hn, hf, entryKeys, ih]
      | some obj =>
        by_cases hk : recHas obj key
        · simp [findOwner, hn, hf, hk, (recHas_iff obj key).mp hk]
        · have hm : key ∉ entryKeys obj :=
            (recHas_false_iff obj key).mp (by simpa using hk)
          simp [findOwner, hn, hf, hk, hm, ih]

/-- C6: swapping two adjacent descriptors of a successfully-resolving
sequence leaves resolution successful, keeps the `permissions`, `actions` and
`routes` mappings pointwise identical and the `roles` sets identical, and
permutes only the `integrations`, `middleware` and hook lists. -/
theorem swap_adjacent (pre post : List Plugin) (a b : Plugin)
    (r : ResolvedPlugins)
    (h : resolvePlugins (pre ++ a :: b :: post) = .ok r) :
    ∃ r2, resolvePlugins (pre ++ b :: a :: post) = .ok r2 ∧
      (∀ k, recGet r2.permissions k = recGet r.permissions k) ∧
      (∀ k, recGet r2.actions k = recGet r.actions k) ∧
      (∀ k, recGet r2.routes k = recGet r.routes k) ∧
      (∀ role s, s ∈ (recGet r2.roles role).getD [] ↔
        s ∈ (recGet r.roles role).getD []) ∧
      r2.integrations.Perm r.integrations ∧
      r2.middleware.Perm r.middleware ∧
      r2.hooks.onInit.Perm r.hooks.onInit ∧
      r2.hooks.onRequest.Perm r.hooks.onRequest ∧
      r2.hooks.onError.Perm r.hooks.onError ∧
      r2.hooks.onShutdown.Perm r.hooks.onShutdown := by
  have hlp : (pre ++ a :: b :: post).Perm (pre ++ b :: a :: post) :=
    List.Perm.append_left pre (List.Perm.swap b a post)
  have hflat : ∀ {γ : Type} (f : Plugin → List γ),
      ((pre ++ a :: b :: post).map f).flatten.Perm
        ((pre ++ b :: a :: post).map f).flatten :=
    fun f => (hlp.map f).flatten
  obtain ⟨as0, hrun⟩ := resolvePlugins_ok_elim h
  have hcan : CanRun emptyResolved (pre ++ a :: b :: post) :=
    (runPlugins_ok_iff _ _ emptyResolved none).mp ⟨(r, as0), hrun⟩
  obtain ⟨⟨f1, n1⟩, ⟨f2, n2⟩, ⟨f3, n3⟩, h4⟩ := hcan
  have n1b : (entryKeys (((pre ++ b :: a :: post).map permEntries).flatten)).Nodup :=
    ((hflat permEntries).map Prod.fst).nodup_iff.mp n1
  have n2b : (entryKeys (((pre ++ b :: a :: post).map actEntries).flatten)).Nodup :=
    ((hflat actEntries).map Prod.fst).nodup_iff.mp n2
  have n3b : (entryKeys (((pre ++ b :: a :: post).map routeEntries).flatten)).Nodup :=
    ((hflat routeEntries).map Prod.fst).nodup_iff.mp n3
  have hcan2 : CanRun emptyResolved (pre ++ b :: a :: post) := by
    refine ⟨⟨?_, n1b⟩, ⟨?_, n2b⟩, ⟨?_, n3b⟩, ?_⟩
    · intro k _ hk
      simp [emptyResolved, entryKeys] at hk
    · intro k _ hk
      simp [emptyResolved, entryKeys] at hk
    · intro k _ hk
      simp [emptyResolved, entryKeys] at hk
    · rw [show authCount (pre ++ b :: a :: post) =
        authCount (pre ++ a :: b :: post) from (hlp.countP_eq _).symm]
      exact h4
  obtain ⟨st2, hrun2⟩ := (runPlugins_ok_iff (pre ++ b :: a :: post)
    (pre ++ b :: a :: post) emptyResolved none).mpr hcan2
  have hok2 : resolvePlugins (pre ++ b :: a :: post) = .ok st2.1 :=
    resolvePlugins_ok_intro hrun2
  obtain ⟨c1, c2, c3, c4, c5, c6, c7, c8, c9, _⟩ := runPlugins_ok_fields hrun
  obtain ⟨d1, d2, d3, d4, d5, d6, d7, d8, d9, _⟩ := runPlugins_ok_fields hrun2
  have e1 : r.integrations = ((pre ++ a :: b :: post).map integList).flatten := by
    simpa [emptyResolved] using c1
  have e2 : r.middleware = ((pre ++ a :: b :: post).map middlewareList).flatten := by
    simpa [emptyResolved] using c2
  have e3 : r.permissions = ((pre ++ a :: b :: post).map permEntries).flatten := by
    simpa [emptyResolved] using c3
  have e4 : r.actions = ((pre ++ a :: b :: post).map actEntries).flatten := by
    simpa [emptyResolved] using c4
  have e5 : r.routes = ((pre ++ a :: b :: post).map routeEntries).flatten := by
    simpa [emptyResolved] using c5
  have e6 : r.hooks.onInit = ((pre ++ a :: b :: post).map initHookList).flatten := by
    simpa [emptyResolved] using c6
  have e7 : r.hooks.onRequest =
      ((pre ++ a :: b :: post).map requestHookList).flatten := by
    simpa [emptyResolved] using c7
  have e8 : r.hooks.onError = ((pre ++ a :: b :: post).map errorHookList).flatten := by
    simpa [emptyResolved] using c8
  have e9 : r.hooks.onShutdown =
      ((pre ++ a :: b :: post).map shutdownHookList).flatten := by
    simpa [emptyResolved] using c9
  have g1 : st2.1.integrations =
      ((pre ++ b :: a :: post).map integList).flatten := by
    simpa [emptyResolved] using d1
  have g2 : st2.1.middleware =
      ((pre ++ b :: a :: post).map middlewareList).flatten := by
    simpa [emptyResolved] using d2
  have g3 : st2.1.permissions =
      ((pre ++ b :: a :: post).map permEntries).flatten := by
    simpa [emptyResolved] using d3
  have g4 : st2.1.actions = ((pre ++ b :: a :: post).map actEntries).flatten := by
    simpa [emptyResolved] using d4
  have g5 : st2.1.routes = ((pre ++ b :: a :: post).map routeEntries).flatten := by
    simpa [emptyResolved] using d5
  have g6 : st2.1.hooks.onInit =
      ((pre ++ b :: a :: post).map initHookList).flatten := by
    simpa [emptyResolved] using d6
  have g7 : st2.1.hooks.onRequest =
      ((pre ++ b :: a :: post).map requestHookList).flatten := by
    simpa [emptyResolved] using d7
  have g8 : st2.1.hooks.onError =
      ((pre ++ b :: a :: post).map errorHookList).flatten := by
    simpa [emptyResolved] using d8
  have g9 : st2.1.hooks.onShutdown =
      ((pre ++ b :: a :: post).map shutdownHookList).flatten := by
    simpa [emptyResolved] using d9
  refine ⟨st2.1, hok2, ?_, ?_, ?_, ?_, ?_, ?_, ?_, ?_, ?_, ?_⟩
  · intro k
    rw [e3, g3]
    exact recGet_eq_of_perm (hflat permEntries).symm n1b k
  · intro k
    rw [e4, g4]
    exact recGet_eq_of_perm (hflat actEntries).symm n2b k
  · intro k
    rw [e5, g5]
    exact recGet_eq_of_perm (hflat routeEntries).symm n3b k
  · intro role s
    rw [resolvePlugins_roles_char hok2 role, resolvePlugins_roles_char h role,
      mem_dedupFS, mem_dedupFS]
    exact (hflat (rolePermsAt role)).symm.mem_iff
  · rw [e1, g1]
    exact (hflat integList).symm
  · rw [e2, g2]
    exact (hflat middlewareList).symm
  · rw [e6, g6]
    exact (hflat initHookList).symm
  · rw [e7, g7]
    exact (hflat requestHookList).symm
  · rw [e8, g8]
    exact (hflat errorHookList).symm
  · rw [e9, g9]
    exact (hflat shutdownHookList).symm

/-- Witness for C6 at a concrete adjacent swap. -/
theorem swap_adjacent_witness :
    ∃ r2, resolvePlugins ([] ++ exB :: exA :: []) = .ok r2 ∧
      (∀ k, recGet r2.permissions k = recGet exR.permissions k) ∧
      (∀ k, recGet r2.actions k = recGet exR.actions k) ∧
      (∀ k, recGet r2.routes k = recGet exR.routes k) ∧
      (∀ role s, s ∈ (recGet r2.roles role).getD [] ↔
        s ∈ (recGet exR.roles role).getD []) ∧
      r2.integrations.Perm exR.integrations ∧
      r2.middleware.Perm exR.middleware ∧
      r2.hooks.onInit.Perm exR.hooks.onInit ∧
      r2.hooks.onRequest.Perm exR.hooks.onRequest ∧
      r2.hooks.onError.Perm exR.hooks.onError ∧
      r2.hooks.onShutdown.Perm exR.hooks.onShutdown :=
  swap_adjacent [] [] exA exB exR (by rfl)

end Superapp
